import Mathlib

/-!
# Verification of the ntfs-3g UEFI driver file-handle bridge (uefi_bridge.c)

This file is a shallow embedding, in Lean 4, of the single-open-instance
file-handle bridge of the ntfs-3g UEFI driver (source file `uefi_bridge.c`),
together with proofs and refutations of the specification claims about it.

Modelling conventions, used throughout:

* C machine integers that carry identities (inode numbers `mft_no`, record
  identities) are modelled as `Nat`; byte counts and file offsets, which are
  signed 64-bit (`s64`) in the source and never approach overflow in the
  modelled paths, are modelled as `Int`.
* The caller-visible `EFI_NTFS_FILE` structure is modelled as a record value;
  the intrusive lookup list (`LookupListHead` plus `LookupEntry` cells) is
  modelled as a `List` of such records in insertion order (the C code inserts
  with `InsertTailList` and scans from `ForwardLink`, i.e. front to back).
* The underlying ntfs-3g engine (`ntfs_inode_open`, `ntfs_pathname_to_inode`,
  `ntfs_link`, `ntfs_delete`, `ntfs_create`, `ntfs_inode_sync`) is not part of
  the sources under verification; it is modelled as a finite map from paths to
  on-disk objects, with the engine calls behaving per their contracts
  (fault-free except where the bridge code itself distinguishes failures:
  those sites take explicit Boolean oracles).
* A record's `NtfsInode` field models the *engine handle state*: `some i`
  when the record holds an open engine inode with number `i`, `none` when the
  engine inode is closed (including the windows where the C pointer is stale
  but the engine-side inode has been closed, e.g. after `ntfs_delete`).
-/

set_option maxRecDepth 8000
set_option maxHeartbeats 1600000

namespace NtfsBridge

/-- The EFI status codes that appear in `uefi_bridge.c` (as returned by the
bridge functions or produced by `ErrnoToEfiStatus`, lines 61-152). -/
inductive EfiStatus where
  | SUCCESS
  | LOAD_ERROR
  | INVALID_PARAMETER
  | UNSUPPORTED
  | BAD_BUFFER_SIZE
  | BUFFER_TOO_SMALL
  | NOT_READY
  | DEVICE_ERROR
  | WRITE_PROTECTED
  | OUT_OF_RESOURCES
  | VOLUME_CORRUPTED
  | VOLUME_FULL
  | NO_MEDIA
  | MEDIA_CHANGED
  | NOT_FOUND
  | ACCESS_DENIED
  | NO_RESPONSE
  | NO_MAPPING
  | TIMEOUT
  | NOT_STARTED
  | ALREADY_STARTED
  | ABORTED
  | PROTOCOL_ERROR
  | SECURITY_VIOLATION
  | END_OF_MEDIA
  | END_OF_FILE
  | WARN_DELETE_FAILURE
deriving DecidableEq, Repr

/-- `EFI_ERROR(Status)`: true for the error codes (high bit set in the C
encoding). `EFI_SUCCESS` and the warning code `EFI_WARN_DELETE_FAILURE`
(warning codes have the high bit clear) are not errors. -/
def EfiStatus.isError : EfiStatus → Bool
  | .SUCCESS => false
  | .WARN_DELETE_FAILURE => false
  | _ => true

/-- The errno values distinguished by `ErrnoToEfiStatus` (uefi_bridge.c lines
61-152). POSIX requires all of these to be distinct integers; they are
modelled as distinct constructors, with `other n` standing for any errno not
named in the switch (mapped by the `default` case). `e0` is errno 0. -/
inductive Errno where
  | e0
  | ECANCELED
  | EACCES | EEXIST | ETXTBSY
  | EADDRINUSE | EALREADY | EINPROGRESS | EISCONN
  | EMSGSIZE
  | E2BIG | EOVERFLOW | ERANGE
  | ENODEV
  | ENOEXEC
  | ESPIPE
  | EFBIG
  | EBADF | EDOM | EFAULT | EIDRM | EILSEQ | EINVAL | ENAMETOOLONG | EPROTOTYPE
  | EMFILE | EMLINK | ENFILE | ENOBUFS | ENOLCK | ENOLINK | ENOMEM | ENOSR
  | EBADMSG | EISDIR | EIO | ENOMSG | ENOSTR | EPROTO
  | EBUSY | ENODATA
  | ECHILD | ENOENT | ENXIO
  | EAGAIN | EINTR
  | ESRCH
  | ETIME | ETIMEDOUT
  | EAFNOSUPPORT | ENOPROTOOPT | ENOSYS | ENOTSUP
  | ENOMEDIUM
  | ELOOP | ENOTDIR | ENOTEMPTY | EXDEV
  | ENOSPC
  | EROFS
  | EPERM
  | other (n : Nat)
deriving Repr

/-- `ErrnoToEfiStatus` (uefi_bridge.c lines 61-152): translation of the
engine's errno into an EFI status code, transcribed case by case from the
`switch (errno)` statement. -/
def ErrnoToEfiStatus : Errno → EfiStatus
  | .e0 => .SUCCESS
  | .ECANCELED => .ABORTED
  | .EACCES | .EEXIST | .ETXTBSY => .ACCESS_DENIED
  | .EADDRINUSE | .EALREADY | .EINPROGRESS | .EISCONN => .ALREADY_STARTED
  | .EMSGSIZE => .BAD_BUFFER_SIZE
  | .E2BIG | .EOVERFLOW | .ERANGE => .BUFFER_TOO_SMALL
  | .ENODEV => .DEVICE_ERROR
  | .ENOEXEC => .LOAD_ERROR
  | .ESPIPE => .END_OF_FILE
  | .EFBIG => .END_OF_MEDIA
  | .EBADF | .EDOM | .EFAULT | .EIDRM | .EILSEQ | .EINVAL | .ENAMETOOLONG
  | .EPROTOTYPE => .INVALID_PARAMETER
  | .EMFILE | .EMLINK | .ENFILE | .ENOBUFS | .ENOLCK | .ENOLINK | .ENOMEM
  | .ENOSR => .OUT_OF_RESOURCES
  | .EBADMSG | .EISDIR | Errno.EIO | .ENOMSG | .ENOSTR | .EPROTO => .PROTOCOL_ERROR
  | .EBUSY | .ENODATA => .NO_RESPONSE
  | .ECHILD | .ENOENT | Errno.ENXIO => .NOT_FOUND
  | .EAGAIN | .EINTR => .NOT_READY
  | .ESRCH => .NOT_STARTED
  | .ETIME | .ETIMEDOUT => .TIMEOUT
  | .EAFNOSUPPORT | .ENOPROTOOPT | .ENOSYS | .ENOTSUP => .UNSUPPORTED
  | .ENOMEDIUM => .NO_MEDIA
  | .ELOOP | .ENOTDIR | .ENOTEMPTY | .EXDEV => .VOLUME_CORRUPTED
  | .ENOSPC => .VOLUME_FULL
  | .EROFS => .WRITE_PROTECTED
  | .EPERM => .SECURITY_VIOLATION
  | .other _ => .NO_MAPPING

/-! ## Path model

Paths are UTF-16 strings in the source (`CHAR16*`), compared character by
character with `StrCmp`; they are modelled as `List Char`. `PATH_CHAR` is the
backslash separator. -/

/-- The path separator `PATH_CHAR` of the driver. -/
def PATH_CHAR : Char := '\\'

/-- Paths (`CHAR16*` strings of the driver), as character lists. -/
abbrev FsPath := List Char

/-- The dirname computation the source performs in place: truncate the path
buffer at its last `PATH_CHAR` (`while (TmpPath[--Len] != PATH_CHAR);
TmpPath[Len] = 0;`, e.g. uefi_bridge.c lines 464-469 and 1141-1142, and the
`File->BaseName[-1] = 0` truncation of `NtfsLookupParent`, lines 362-365):
everything strictly before the last separator. -/
def parentPathOf (p : FsPath) : FsPath :=
  ((p.reverse.dropWhile (fun c => c ≠ PATH_CHAR)).reverse).dropLast

/-- The final path segment (what `File->BaseName` points to: the suffix after
the last `PATH_CHAR`). -/
def baseNameOf (p : FsPath) : FsPath :=
  (p.reverse.takeWhile (fun c => c ≠ PATH_CHAR)).reverse

/-! ## Data model: handle records, the on-disk map, volume state -/

/-- Model of `EFI_NTFS_FILE` (declared in uefi_driver.h, used throughout
uefi_bridge.c), restricted to the fields the bridge logic reads or writes:
`Path`, `IsRoot`, `IsDir`, `NtfsInode`, and the two dirty bits of the inode
it points to (`NInoDirty` / `NInoAttrListDirty`, combined by the `IS_DIRTY`
macro of line 43). `fid` models the identity of the C allocation (pointer
identity), used for pointer comparisons such as `Entry->File == File`.
`NtfsInode = some i` means the record holds an open engine inode with
`mft_no = i`; `none` models a closed/absent engine inode. -/
structure EfiNtfsFile where
  fid : Nat
  Path : FsPath
  IsRoot : Bool
  IsDir : Bool
  NtfsInode : Option Nat
  dirtyMain : Bool
  dirtyAttrList : Bool
deriving DecidableEq, Repr

/-- The `IS_DIRTY` macro (uefi_bridge.c line 43):
`NInoDirty(ni) || NInoAttrListDirty(ni)`. -/
def IS_DIRTY (f : EfiNtfsFile) : Bool := f.dirtyMain || f.dirtyAttrList

/-- One on-disk object visible under a path: the engine's name tree, the
collaborator behind `ntfs_pathname_to_inode` / `ntfs_create` / `ntfs_link` /
`ntfs_delete`. `inum` is the object's `mft_no`. -/
structure DiskEntry where
  path : FsPath
  inum : Nat
  isDir : Bool
deriving DecidableEq, Repr

/-- Per-volume state: the lookup list of `EFI_FS` (`LookupListHead`,
insertion order, scanned front to back) together with the engine's name tree
and a supply of fresh inode numbers for `ntfs_create`. -/
structure VolState where
  reg : List EfiNtfsFile
  disk : List DiskEntry
  nextInum : Nat
deriving DecidableEq, Repr

/-- `FILE_root`: the well-known mft number of the root directory. -/
def rootInum : Nat := 5

/-- `FILE_Extend`: the mft number of the reserved `$Extend` metadata
directory (the `dir_ni->mft_no == FILE_Extend` checks, lines 938 and 1040). -/
def extendInum : Nat := 11

/-- Engine name-tree lookup of an exact path. -/
def diskFind (disk : List DiskEntry) (p : FsPath) : Option DiskEntry :=
  disk.find? (fun e => e.path == p)

/-! ## Open-object registry (the lookup list) -/

/-- `NtfsLookup` with `Inum = 0`, i.e. `NtfsLookupPath` (uefi_bridge.c lines
320-347 and 350): scan the lookup list front to back; skip the entry whose
record is the ignored record itself (the `IgnoreSelf` flag, modelled by an
optional `fid`); an empty searched path matches the record flagged `IsRoot`;
otherwise match by exact `StrCmp` path equality. -/
def lookupPath (st : VolState) (p : FsPath) (ignore : Option Nat) :
    Option EfiNtfsFile :=
  st.reg.find? (fun e =>
    !(ignore == some e.fid) && ((p.isEmpty && e.IsRoot) || p == e.Path))

/-- `NtfsLookupParent` (uefi_bridge.c lines 356-367): temporarily truncate
the record's path at its last separator and search for it, ignoring the
record itself. -/
def lookupParentOf (st : VolState) (f : EfiNtfsFile) : Option EfiNtfsFile :=
  lookupPath st (parentPathOf f.Path) (some f.fid)

/-- Find a registered record by its identity (dereferencing a held
`EFI_NTFS_FILE*` whose record may have been updated in place). -/
def regFind (reg : List EfiNtfsFile) (fid : Nat) : Option EfiNtfsFile :=
  reg.find? (fun e => e.fid == fid)

/-- `NtfsLookupRem` (uefi_bridge.c lines 387-402): remove the entry of a
record from the lookup list (idempotent: removing an absent record is a
no-op). -/
def regRemove (reg : List EfiNtfsFile) (fid : Nat) : List EfiNtfsFile :=
  reg.filter (fun e => e.fid != fid)

/-- In-place update of a held record's `NtfsInode` field (e.g.
`Parent->NtfsInode = ntfs_inode_open(...)`). -/
def regSetInode (reg : List EfiNtfsFile) (fid : Nat) (v : Option Nat) :
    List EfiNtfsFile :=
  reg.map (fun e => if e.fid == fid then { e with NtfsInode := v } else e)

/-- In-place update of a held record's `Path` (the `File->Path = NewPath`
assignment of `NtfsMoveFile`, line 1219). -/
def regSetPath (reg : List EfiNtfsFile) (fid : Nat) (p : FsPath) :
    List EfiNtfsFile :=
  reg.map (fun e => if e.fid == fid then { e with Path := p } else e)

/-- In-place update of a held record's dirty bits (the effect on `IS_DIRTY`
of intervening writes/truncations through the handle, performed by
`NtfsWriteFile`/`NtfsSetFileInfo` via the engine's attribute calls). -/
def regSetDirty (reg : List EfiNtfsFile) (fid : Nat) (d1 d2 : Bool) :
    List EfiNtfsFile :=
  reg.map (fun e =>
    if e.fid == fid then { e with dirtyMain := d1, dirtyAttrList := d2 } else e)

/-! ## Inode resolution -/

/-- `NtfsOpenInodeFromPath` (uefi_bridge.c lines 438-481), at the granularity
of the object it returns. The empty path and the single-separator path open
`FILE_root` directly (lines 448-450). Otherwise the code walks down the path
to the deepest already-open directory record and asks
`ntfs_pathname_to_inode` to resolve the remaining suffix from there; the
starting point only works around the engine's aversion to reopening
intermediate inodes and does not change which object the path denotes, so the
result is the engine's name-tree entry for the full path (or `none`, errno
`ENOENT`, when the path does not exist). -/
def openInodeFromPath (st : VolState) (p : FsPath) : Option Nat :=
  if p.isEmpty || p == [PATH_CHAR] then some rootInum
  else (diskFind st.disk p).map (fun e => e.inum)

/-- Whether the object a path denotes is a directory (the `IS_DIR` test on
the freshly opened inode, line 42); the root is a directory. -/
def diskIsDirAt (st : VolState) (p : FsPath) : Bool :=
  if p.isEmpty || p == [PATH_CHAR] then true
  else ((diskFind st.disk p).map (fun e => e.isDir)).getD false

/-! ## Handle lifecycle operations

Each operation returns the updated volume state together with its
`EFI_STATUS` (except `NtfsCloseFile`, which is `VOID` in the source).
Boolean oracle parameters stand for the outcomes of the engine calls the
bridge explicitly checks and handles (reopen-by-id after a temporary
release, `ntfs_delete`, `ntfs_inode_sync`); all other engine calls behave
per their disk-state contracts (fault-free engine model). -/

/-- `NtfsOpenFile` (uefi_bridge.c lines 640-667). The caller passes a
freshly allocated record (modelled by its fresh identity `fid`) whose `Path`
is `p`. If `NtfsLookupPath` finds an existing instance, the new record is
freed and the existing one is returned with `EFI_SUCCESS` and no state
change. Otherwise `IsRoot` is set iff the path is exactly the single
separator (line 657: `Path[0] == PATH_CHAR && Path[1] == 0`), the inode is
opened from the path (failure translates errno, which in the fault-free
model is `ENOENT`), `IsDir` is read off the inode, and the record is added
to the lookup list. -/
def NtfsOpenFile (st : VolState) (fid : Nat) (p : FsPath) :
    VolState × Option EfiNtfsFile × EfiStatus :=
  match lookupPath st p none with
  | some F => (st, some F, .SUCCESS)
  | none =>
    match openInodeFromPath st p with
    | none => (st, none, ErrnoToEfiStatus .ENOENT)
    | some i =>
      let F : EfiNtfsFile :=
        { fid := fid, Path := p, IsRoot := p == [PATH_CHAR],
          IsDir := diskIsDirAt st p, NtfsInode := some i,
          dirtyMain := false, dirtyAttrList := false }
      ({ st with reg := st.reg ++ [F] }, some F, .SUCCESS)

/-- `NtfsCreateFile` (uefi_bridge.c lines 891-988). `fb` is the
`ntfs_forbidden_names` predicate on the basename (engine collaborator).
An existing open instance is reused if its directory-ness matches (lines
901-909). Otherwise: forbidden-name check; parent resolution (reusing a
registered parent record, else opening the parent inode fresh — the fresh
handle is closed again on exit, line 981-982); `$Extend` rejection; if the
target already exists on disk it is adopted after a directory-ness check,
else `ntfs_create` makes a fresh object; the new record is registered. -/
def NtfsCreateFile (fb : FsPath → Bool) (st : VolState) (fid : Nat)
    (p : FsPath) (isDir : Bool) :
    VolState × Option EfiNtfsFile × EfiStatus :=
  match lookupPath st p none with
  | some F =>
    if F.IsDir != isDir then (st, none, .ACCESS_DENIED)
    else (st, some F, .SUCCESS)
  | none =>
    if fb (baseNameOf p) then (st, none, .INVALID_PARAMETER)
    else
      let dirInode : Option Nat :=
        match lookupPath st (parentPathOf p) (some fid) with
        | some P => P.NtfsInode
        | none => openInodeFromPath st (parentPathOf p)
      match dirInode with
      | none => (st, none, ErrnoToEfiStatus .ENOENT)
      | some di =>
        if di == extendInum then (st, none, .ACCESS_DENIED)
        else
          match diskFind st.disk p with
          | some e =>
            if e.isDir != isDir then (st, none, .ACCESS_DENIED)
            else
              let F : EfiNtfsFile :=
                { fid := fid, Path := p, IsRoot := false, IsDir := isDir,
                  NtfsInode := some e.inum,
                  dirtyMain := false, dirtyAttrList := false }
              ({ st with reg := st.reg ++ [F] }, some F, .SUCCESS)
          | none =>
            let F : EfiNtfsFile :=
              { fid := fid, Path := p, IsRoot := false, IsDir := isDir,
                NtfsInode := some st.nextInum,
                dirtyMain := false, dirtyAttrList := false }
            ({ reg := st.reg ++ [F],
               disk := st.disk ++ [⟨p, st.nextInum, isDir⟩],
               nextInum := st.nextInum + 1 }, some F, .SUCCESS)

/-- `NtfsCloseFile` (uefi_bridge.c lines 672-705, `VOID`). A null record or
a record with no engine inode returns immediately (line 678-679). If the
inode is dirty, the registered parent (if any) is closed around the
`ntfs_inode_close` of the file so the engine's write-back can reopen it
(lines 689-695); afterwards the parent is reopened by inode number
(`reopenOk` oracle); on reopen failure the parent is logged and removed
from the lookup list (lines 697-703). The file's entry is then always
removed (line 704). The parent branch only engages when the registered
parent actually holds an engine inode (the source dereferences
`Parent->NtfsInode->mft_no`, which presumes exactly that). -/
def NtfsCloseFile (st : VolState) (fid : Nat) (reopenOk : Bool) : VolState :=
  match regFind st.reg fid with
  | none => st
  | some F =>
    match F.NtfsInode with
    | none => st
    | some _ =>
      let pdance : Option (Nat × Nat) :=
        if IS_DIRTY F then
          match lookupParentOf st F with
          | some P =>
            match P.NtfsInode with
            | some pi => some (P.fid, pi)
            | none => none
          | none => none
        else none
      match pdance with
      | none => { st with reg := regRemove st.reg fid }
      | some (pfid, pi) =>
        if reopenOk then
          { st with reg := regRemove (regSetInode st.reg pfid (some pi)) fid }
        else
          { st with reg := regRemove (regRemove st.reg pfid) fid }

/-- `NtfsDeleteFile` (uefi_bridge.c lines 996-1072). Oracles: `delOk` is the
outcome of `ntfs_delete` (which in addition fails, errno `EINVAL`, when it
is handed a null file inode or an empty name); `reopenP`/`reopenGP` are the
outcomes of the reopen-by-id calls for the parent/grandparent; `reErr` is
the errno a failed reopen leaves. Control flow:
* parent lookup; if not registered, the parent inode is opened fresh
  (failure translates errno) and no grandparent dance happens (the `TODO`
  of line 1013);
* if the parent is registered, the registered non-root grandparent's engine
  inode is closed first (lines 1024-1032);
* deleting from `$Extend` is rejected (lines 1040-1041) — note this happens
  after the grandparent was closed, which the code does not undo;
* `ntfs_delete` consumes (closes) both the file's inode and the directory
  inode it is given, succeed or fail; the record is removed from the lookup
  list regardless of the outcome (line 1046), and a failed delete returns
  `EFI_WARN_DELETE_FAILURE` without reopening parent or grandparent (lines
  1047-1050);
* on success the parent, then the grandparent, are reopened by number; a
  reopen failure removes that record from the lookup list and makes the
  call return the translated errno (lines 1054-1069). -/
def NtfsDeleteFile (st : VolState) (fid : Nat)
    (delOk reopenP reopenGP : Bool) (reErr : Errno) : VolState × EfiStatus :=
  match regFind st.reg fid with
  | none => (st, .SUCCESS)
  | some F =>
    let success := delOk && F.NtfsInode.isSome && !(baseNameOf F.Path).isEmpty
    match lookupParentOf st F with
    | none =>
      match openInodeFromPath st (parentPathOf F.Path) with
      | none => (st, ErrnoToEfiStatus .ENOENT)
      | some di =>
        if di == extendInum then (st, .ACCESS_DENIED)
        else if success then
          ({ st with
              reg := regRemove st.reg fid,
              disk := st.disk.filter (fun e => e.path != F.Path) }, .SUCCESS)
        else
          ({ st with reg := regRemove st.reg fid }, .WARN_DELETE_FAILURE)
    | some P =>
      match P.NtfsInode with
      | none => (st, ErrnoToEfiStatus .EINVAL)
      | some pi =>
        let gpInfo : Option (Nat × Nat) :=
          match lookupParentOf st P with
          | some GP =>
            if GP.IsRoot then none
            else
              match GP.NtfsInode with
              | some gi => some (GP.fid, gi)
              | none => none
          | none => none
        let st1 :=
          match gpInfo with
          | some (gfid, _) => { st with reg := regSetInode st.reg gfid none }
          | none => st
        if pi == extendInum then (st1, .ACCESS_DENIED)
        else
          let st2 := { st1 with reg := regSetInode st1.reg P.fid none }
          if success then
            let st3 : VolState :=
              { st2 with
                  reg := regRemove st2.reg fid,
                  disk := st2.disk.filter (fun e => e.path != F.Path) }
            if reopenP then
              let st4 := { st3 with reg := regSetInode st3.reg P.fid (some pi) }
              match gpInfo with
              | none => (st4, .SUCCESS)
              | some (gfid, gi) =>
                if reopenGP then
                  ({ st4 with reg := regSetInode st4.reg gfid (some gi) },
                   .SUCCESS)
                else
                  ({ st4 with reg := regRemove st4.reg gfid },
                   ErrnoToEfiStatus reErr)
            else
              ({ st3 with reg := regRemove st3.reg P.fid },
               ErrnoToEfiStatus reErr)
          else
            ({ st2 with reg := regRemove st2.reg fid }, .WARN_DELETE_FAILURE)

/-- `NtfsMoveFile` (uefi_bridge.c lines 1120-1283), fault-free engine model.
Control flow, in source order:
* unchanged path: `EFI_SUCCESS` (lines 1133-1134);
* a dirty object is rejected with `EFI_ACCESS_DENIED` before anything is
  touched (lines 1137-1138);
* source-parent resolution (registered record reused, else opened fresh); a
  registered parent whose engine inode is closed yields the null-handle
  error exit (lines 1144-1157);
* forbidden new basename: `EFI_INVALID_PARAMETER` (lines 1161-1165);
* if the destination directory differs, it is resolved preferring a lookup
  hit; on a miss the source parent's inode is transiently closed and
  reopened by id around the fresh resolution (lines 1167-1204); in the
  fault-free model this transient dance restores the state exactly;
* `ntfs_link` creates the new name (fails, `EEXIST`/`EINVAL`, if the name
  already exists or is empty — also when the file's own inode is absent);
  then the record's path is swapped to the new one, the old name is deleted
  under the original parent, and the object is re-resolved under its new
  name, which in the fault-free model yields the same inode number; the
  transiently closed directory inodes are restored into their records in
  the child-first order computed via `ParentIsChildOfNewParent` (lines
  1207-1282) — order with no net state effect here.
The net state effect on success: the disk entry moves from the old path to
the new one, and the record's `Path` becomes the new path. -/
def NtfsMoveFile (fb : FsPath → Bool) (st : VolState) (fid : Nat)
    (newPath : FsPath) : VolState × EfiStatus :=
  match regFind st.reg fid with
  | none => (st, .ACCESS_DENIED)
  | some F =>
    if F.Path == newPath then (st, .SUCCESS)
    else if IS_DIRTY F then (st, .ACCESS_DENIED)
    else
      let newDir := parentPathOf newPath
      let sameDir := newDir == parentPathOf F.Path
      let parentInode : Option Nat :=
        match lookupParentOf st F with
        | some P => P.NtfsInode
        | none => openInodeFromPath st (parentPathOf F.Path)
      match parentInode with
      | none => (st, ErrnoToEfiStatus .ENOENT)
      | some pidir =>
        if fb (baseNameOf newPath) then (st, .INVALID_PARAMETER)
        else
          let newParentInode : Option Nat :=
            if sameDir then some pidir
            else
              match lookupPath st newDir none with
              | some NP => NP.NtfsInode
              | none => openInodeFromPath st newDir
          match newParentInode with
          | none => (st, ErrnoToEfiStatus .ENOENT)
          | some _ =>
            match F.NtfsInode with
            | none => (st, ErrnoToEfiStatus .EINVAL)
            | some i =>
              if (diskFind st.disk newPath).isSome
                  || (baseNameOf newPath).isEmpty then
                (st, ErrnoToEfiStatus .EEXIST)
              else
                let d :=
                  ((diskFind st.disk F.Path).map (fun e => e.isDir)).getD F.IsDir
                ({ st with
                   reg := regSetPath st.reg fid newPath,
                   disk := (st.disk.filter (fun e => e.path != F.Path))
                     ++ [⟨newPath, i, d⟩] }, .SUCCESS)

/-- Result of `NtfsFlushFile`, with the two pieces of observable engine
interaction the claims speak about: whether `ntfs_inode_sync` was invoked,
and whether the registered parent's inode was released (and reacquired)
around it. -/
structure FlushResult where
  st : VolState
  status : EfiStatus
  syncCalled : Bool
  parentReleased : Bool
deriving DecidableEq, Repr

/-- `NtfsFlushFile` (uefi_bridge.c lines 1386-1420). The early exit is the
source's literal condition `!NInoDirty(ni) && NInoAttrListDirty(ni)` (line
1396). Otherwise the registered parent's engine inode (when the parent
record holds one) is closed around `ntfs_inode_sync` and reopened by number
(`reopenOk` oracle); a reopen failure is logged and removes the parent from
the lookup list without altering the returned status, which reflects only
the sync outcome (`syncOk`/`syncErr`). A successful sync clears the inode's
dirty bits. -/
def NtfsFlushFile (st : VolState) (fid : Nat) (syncOk reopenOk : Bool)
    (syncErr : Errno) : FlushResult :=
  match regFind st.reg fid with
  | none => ⟨st, .SUCCESS, false, false⟩
  | some F =>
    if !F.dirtyMain && F.dirtyAttrList then ⟨st, .SUCCESS, false, false⟩
    else
      let pdance : Option (Nat × Nat) :=
        match lookupParentOf st F with
        | some P =>
          match P.NtfsInode with
          | some pi => some (P.fid, pi)
          | none => none
        | none => none
      let status := if syncOk then .SUCCESS else ErrnoToEfiStatus syncErr
      let reg1 := if syncOk then regSetDirty st.reg fid false false else st.reg
      match pdance with
      | none => ⟨{ st with reg := reg1 }, status, true, false⟩
      | some (pfid, pi) =>
        if reopenOk then
          ⟨{ st with reg := regSetInode reg1 pfid (some pi) }, status,
           true, true⟩
        else
          ⟨{ st with reg := regRemove reg1 pfid }, status, true, true⟩

/-! ## `NtfsReadFile` -/

/-- Outcome of `NtfsReadFile`: the accumulated `*Len`, the final
`File->Offset`, and the returned status. -/
structure ReadResult where
  Len : Int
  Offset : Int
  status : EfiStatus
deriving DecidableEq, Repr

/-- The read loop of `NtfsReadFile` (uefi_bridge.c lines 751-767).
`pread k` is the value the `k`-th call of `ntfs_attr_pread` returns and
`engineErr` the errno a negative return leaves. Each successful partial read
advances the offset and the accumulated length and shrinks `size`; a return
that is zero or negative, or that exceeds the remaining size, aborts with
the translated errno — a non-negative such return first forces
`errno = EIO` (lines 757-763). `fuel` bounds the iteration count; since
every continuing step strictly decreases the remaining `size` by at least
one, `size.toNat` steps suffice and exhaustion is unreachable from the
entry point below (the exhaustion branch mirrors the loop condition by
returning success when `size ≤ 0`). -/
def ntfsReadLoop (pread : Nat → Int) (engineErr : Errno) :
    Nat → Nat → Int → Int → Int → ReadResult
  | 0, _, offset, size, acc =>
    if size > 0 then ⟨acc, offset, .DEVICE_ERROR⟩ else ⟨acc, offset, .SUCCESS⟩
  | fuel + 1, k, offset, size, acc =>
    if size > 0 then
      let ret := pread k
      if ret ≤ 0 || ret > size then
        ⟨acc, offset,
          if ret ≥ 0 then ErrnoToEfiStatus Errno.EIO else ErrnoToEfiStatus engineErr⟩
      else
        ntfsReadLoop pread engineErr fuel (k + 1) (offset + ret) (size - ret)
          (acc + ret)
    else ⟨acc, offset, .SUCCESS⟩

/-- `NtfsReadFile` (uefi_bridge.c lines 727-775), with the attribute open
succeeding (its failure path merely translates errno before anything
happens). `data_size` is `na->data_size`, `offset` the record's byte
cursor, `reqLen` the caller's `*Len`. If `Offset + size > data_size`: an
offset strictly beyond the data size returns `EFI_DEVICE_ERROR` with
`*Len = 0` ("Per UEFI specs", lines 742-747); otherwise the requested size
is clamped to `data_size - Offset` (line 748). The loop then accumulates
partial reads. -/
def NtfsReadFile (data_size offset : Int) (reqLen : Nat)
    (pread : Nat → Int) (engineErr : Errno) : ReadResult :=
  let size : Int := reqLen
  if offset + size > data_size then
    if offset > data_size then ⟨0, offset, .DEVICE_ERROR⟩
    else
      ntfsReadLoop pread engineErr ((data_size - offset).toNat + 1) 0 offset
        (data_size - offset) 0
  else ntfsReadLoop pread engineErr (reqLen + 1) 0 offset size 0

/-! ## `NtfsSetFileInfo` -/

/-- The inode attributes `NtfsSetFileInfo` reads or writes, as plain data:
the directory flag, the `IS_DIRTY` state consulted by `NtfsMoveFile`, the
unnamed data attribute's size, the three timestamps the claims are about
(as `ntfs_time` values), and the four DOS attribute flags. -/
structure NtfsInodeData where
  isDir : Bool
  dirty : Bool
  data_size : Int
  creation_time : Int
  last_access_time : Int
  last_data_change_time : Int
  attrReadOnly : Bool
  attrHidden : Bool
  attrSystem : Bool
  attrArchive : Bool
deriving DecidableEq, Repr

/-- The fields of the caller-supplied `EFI_FILE_INFO` that
`NtfsSetFileInfo` consults. The three `EFI_TIME` structures are modelled by
a `Nat` encoding of their bytes, `0` being the all-zero sentinel that
`CompareMem (..., &ZeroTime, ...)` detects. `fileNameIsAbs` is
`IS_PATH_DELIMITER(Info->FileName[0])` and `fileNameDiffers` whether the
cleaned filename differs from the record's current path. -/
structure EfiFileInfo where
  fileNameIsAbs : Bool
  fileNameDiffers : Bool
  CreateTime : Nat
  LastAccessTime : Nat
  ModificationTime : Nat
  FileSize : Int
  attrDirectory : Bool
  attrReadOnly : Bool
  attrHidden : Bool
  attrSystem : Bool
  attrArchive : Bool
deriving DecidableEq, Repr

/-- The tail of `NtfsSetFileInfo` (uefi_bridge.c lines 1358-1380): each
timestamp field that is not the all-zero sentinel is converted
(`UNIX_TO_NTFS_TIME(EfiTimeToUnixTime(...))`, modelled by the conversion
`conv`) and stored; a zero field is ignored. Then the four DOS attribute
flags are cleared and rewritten from `Info->Attribute`, and the call
returns `EFI_SUCCESS` (attribute changes apply on close, no sync). -/
def ntfsSetInfoTail (conv : Nat → Int) (Info : EfiFileInfo)
    (ni : NtfsInodeData) : EfiStatus × NtfsInodeData :=
  let ni := if Info.CreateTime != 0 then
      { ni with creation_time := conv Info.CreateTime } else ni
  let ni := if Info.LastAccessTime != 0 then
      { ni with last_access_time := conv Info.LastAccessTime } else ni
  let ni := if Info.ModificationTime != 0 then
      { ni with last_data_change_time := conv Info.ModificationTime } else ni
  (.SUCCESS,
    { ni with
        attrReadOnly := Info.attrReadOnly, attrHidden := Info.attrHidden,
        attrSystem := Info.attrSystem, attrArchive := Info.attrArchive })

/-- `NtfsSetFileInfo` (uefi_bridge.c lines 1288-1381). In source order:
* changing the entry type is `EFI_ACCESS_DENIED` (lines 1301-1303);
* on a read-only-opened handle, any non-zero timestamp field is
  `EFI_ACCESS_DENIED` before anything is modified (lines 1309-1315);
* an absolute `FileName` differing from the current path triggers a move:
  rejected on a read-only handle, and `NtfsMoveFile` itself rejects a dirty
  object; the engine-dependent remainder of the move is summarised by the
  status `mvStatus` it returns — an error status aborts the call. Whatever
  its outcome, the move does not touch the inode data modelled here (on
  success the re-resolved inode is the same on-disk object and the move
  only updates its `NTFS_UPDATE_CTIME` mft-change time, line 1253, which is
  none of the fields of `NtfsInodeData`);
* a size change on a non-directory is `EFI_ACCESS_DENIED` on a read-only
  handle, else `ntfs_attr_truncate` (`truncOk` oracle, errno `truncErr` on
  failure) sets the new data size (lines 1341-1356);
* finally the timestamp and attribute-flag updates of `ntfsSetInfoTail`. -/
def NtfsSetFileInfo (conv : Nat → Int) (mvStatus : EfiStatus)
    (truncOk : Bool) (truncErr : Errno) (ni : NtfsInodeData)
    (Info : EfiFileInfo) (ReadOnly : Bool) : EfiStatus × NtfsInodeData :=
  if (!ni.isDir && Info.attrDirectory) || (ni.isDir && !Info.attrDirectory) then
    (.ACCESS_DENIED, ni)
  else if ReadOnly && (Info.CreateTime != 0 || Info.LastAccessTime != 0
      || Info.ModificationTime != 0) then
    (.ACCESS_DENIED, ni)
  else
    let moveAbort : Option EfiStatus :=
      if Info.fileNameIsAbs && Info.fileNameDiffers then
        if ReadOnly then some .ACCESS_DENIED
        else if ni.dirty then some .ACCESS_DENIED
        else if mvStatus.isError then some mvStatus
        else none
      else none
    match moveAbort with
    | some s => (s, ni)
    | none =>
      if !ni.isDir && Info.FileSize != ni.data_size then
        if ReadOnly then (.ACCESS_DENIED, ni)
        else if truncOk then
          ntfsSetInfoTail conv Info { ni with data_size := Info.FileSize }
        else (ErrnoToEfiStatus truncErr, ni)
      else ntfsSetInfoTail conv Info ni

/-! ## The operation sequences of the single-open invariant

The protocol-level operations of claim C1 — Open, Create, Close, Delete,
Move — as a transition system over `VolState`, plus `opTouch`, which models
the dirtying effect of intervening writes through an open handle (it only
flips a record's dirty bits). -/

/-- One bridge operation, with the identity of the record it addresses (for
Open/Create: the identity of the freshly allocated record the caller passes
in) and the oracle outcomes of the checked engine calls. -/
inductive Op where
  | opOpen (fid : Nat) (p : FsPath)
  | opCreate (fid : Nat) (p : FsPath) (isDir : Bool)
  | opClose (fid : Nat) (reopenOk : Bool)
  | opDelete (fid : Nat) (delOk reopenP reopenGP : Bool) (reErr : Errno)
  | opMove (fid : Nat) (newPath : FsPath)
  | opTouch (fid : Nat) (d1 d2 : Bool)
deriving Repr

/-- Execute one operation (ignoring the returned status/record). -/
def step (fb : FsPath → Bool) (st : VolState) : Op → VolState
  | .opOpen fid p => (NtfsOpenFile st fid p).1
  | .opCreate fid p isDir => (NtfsCreateFile fb st fid p isDir).1
  | .opClose fid reopenOk => NtfsCloseFile st fid reopenOk
  | .opDelete fid delOk rP rGP reErr =>
      (NtfsDeleteFile st fid delOk rP rGP reErr).1
  | .opMove fid newPath => (NtfsMoveFile fb st fid newPath).1
  | .opTouch fid d1 d2 => { st with reg := regSetDirty st.reg fid d1 d2 }

/-- Run a sequence of operations. -/
def runOps (fb : FsPath → Bool) (st : VolState) : List Op → VolState
  | [] => st
  | op :: rest => runOps fb (step fb st op) rest

/-- Which operations are legal in a state. Open/Create must be handed a
record whose identity is fresh (the caller allocates it with
`NtfsAllocateFile`). The remaining conditions delimit the amendment of
claim C1: no Open/Create/Move may address the empty path (the root is
addressed by the single-separator path), Create and Move need a non-empty
final name component, and the record being moved must itself have a
non-empty final name component (in particular it is not the root record). -/
def legalOp (st : VolState) : Op → Bool
  | .opOpen fid p => !p.isEmpty && (regFind st.reg fid).isNone
  | .opCreate fid p _ =>
      !p.isEmpty && !(baseNameOf p).isEmpty && (regFind st.reg fid).isNone
  | .opClose _ _ => true
  | .opDelete _ _ _ _ _ => true
  | .opMove fid newPath =>
      !newPath.isEmpty && !(baseNameOf newPath).isEmpty &&
      ((regFind st.reg fid).all (fun F => !(baseNameOf F.Path).isEmpty))
  | .opTouch _ _ _ => true

/-- Legality of a whole trace, checked in the states it traverses. -/
def traceLegal (fb : FsPath → Bool) : VolState → List Op → Bool
  | _, [] => true
  | st, op :: rest => legalOp st op && traceLegal fb (step fb st op) rest

/-- Well-formedness of the engine's name tree: paths are distinct, the map
is injective (no two names for one object — no hard links), no entry names
the root forms (empty or single separator), the root object has no entry,
and `nextInum` is fresh. -/
def diskWF (st : VolState) : Prop :=
  (st.disk.map (fun e => e.path)).Nodup ∧
  (st.disk.map (fun e => e.inum)).Nodup ∧
  (∀ e ∈ st.disk, e.path ≠ [] ∧ e.path ≠ [PATH_CHAR] ∧
    e.inum ≠ rootInum ∧ e.inum < st.nextInum) ∧
  rootInum < st.nextInum

/-- A freshly mounted volume: empty lookup list over a well-formed name
tree. -/
def InitOk (st : VolState) : Prop := st.reg = [] ∧ diskWF st

/-- The single-open property of claims C1: no two records of the lookup
list simultaneously hold engine inode handles for the same on-disk object
(two held handles on one object would be two `some` fields with the same
inode number). -/
def HandleUnique (reg : List EfiNtfsFile) : Prop :=
  reg.Pairwise (fun a b => a.NtfsInode = none ∨ a.NtfsInode ≠ b.NtfsInode)

/-- The inductive invariant behind `HandleUnique`: the name tree stays
well-formed; record identities and paths are distinct; no record carries
the empty path; the `IsRoot` flag is only ever set on the single-separator
path; every record's path is the root path or present in the name tree;
and a held engine handle is the root object (for the root path) or exactly
the object the name tree gives the record's path. -/
structure Inv (st : VolState) : Prop where
  dWF : diskWF st
  regFidsND : (st.reg.map (fun r => r.fid)).Nodup
  regPathsND : (st.reg.map (fun r => r.Path)).Nodup
  regNonEmpty : ∀ r ∈ st.reg, r.Path ≠ []
  regRootFlag : ∀ r ∈ st.reg, r.IsRoot = true → r.Path = [PATH_CHAR]
  regOnDisk : ∀ r ∈ st.reg, r.Path = [PATH_CHAR] ∨
    ∃ e ∈ st.disk, e.path = r.Path
  regHandle : ∀ r ∈ st.reg, ∀ i, r.NtfsInode = some i →
    (r.Path = [PATH_CHAR] ∧ i = rootInum) ∨
    ∃ e ∈ st.disk, e.path = r.Path ∧ e.inum = i

instance : DecidableRel
    (fun a b : EfiNtfsFile => a.NtfsInode = none ∨ a.NtfsInode ≠ b.NtfsInode) :=
  fun _ _ => inferInstanceAs (Decidable (_ ∨ _))

instance (reg : List EfiNtfsFile) : Decidable (HandleUnique reg) :=
  inferInstanceAs (Decidable (reg.Pairwise _))

instance (st : VolState) : Decidable (diskWF st) := by
  unfold diskWF; infer_instance

instance (st : VolState) : Decidable (InitOk st) := by
  unfold InitOk; infer_instance

/-! ## Helper lemmas about the registry primitives -/

theorem mem_of_regFind {reg : List EfiNtfsFile} {fid : Nat} {F : EfiNtfsFile}
    (h : regFind reg fid = some F) : F ∈ reg ∧ F.fid = fid := by
  refine ⟨List.mem_of_find?_eq_some h, ?_⟩
  have := List.find?_some h
  simpa using this

theorem mem_regRemove {reg : List EfiNtfsFile} {fid : Nat} {r : EfiNtfsFile} :
    r ∈ regRemove reg fid ↔ r ∈ reg ∧ r.fid ≠ fid := by
  simp [regRemove, List.mem_filter]

theorem regRemove_sublist (reg : List EfiNtfsFile) (fid : Nat) :
    List.Sublist (regRemove reg fid) reg :=
  List.filter_sublist _

theorem regFind_regRemove (reg : List EfiNtfsFile) (fid : Nat) :
    regFind (regRemove reg fid) fid = none := by
  rw [regFind, List.find?_eq_none]
  intro r hr
  have := (mem_regRemove.mp hr).2
  simpa using this

theorem regSetInode_map_fid (reg : List EfiNtfsFile) (fid : Nat)
    (v : Option Nat) :
    (regSetInode reg fid v).map (fun r => r.fid) =
      reg.map (fun r => r.fid) := by
  unfold regSetInode
  rw [List.map_map]
  refine List.map_congr_left (fun a _ => ?_)
  simp only [Function.comp_apply]
  split <;> rfl

theorem regSetInode_map_Path (reg : List EfiNtfsFile) (fid : Nat)
    (v : Option Nat) :
    (regSetInode reg fid v).map (fun r => r.Path) =
      reg.map (fun r => r.Path) := by
  unfold regSetInode
  rw [List.map_map]
  refine List.map_congr_left (fun a _ => ?_)
  simp only [Function.comp_apply]
  split <;> rfl

theorem regSetDirty_map_fid (reg : List EfiNtfsFile) (fid : Nat)
    (d1 d2 : Bool) :
    (regSetDirty reg fid d1 d2).map (fun r => r.fid) =
      reg.map (fun r => r.fid) := by
  unfold regSetDirty
  rw [List.map_map]
  refine List.map_congr_left (fun a _ => ?_)
  simp only [Function.comp_apply]
  split <;> rfl

theorem regSetDirty_map_Path (reg : List EfiNtfsFile) (fid : Nat)
    (d1 d2 : Bool) :
    (regSetDirty reg fid d1 d2).map (fun r => r.Path) =
      reg.map (fun r => r.Path) := by
  unfold regSetDirty
  rw [List.map_map]
  refine List.map_congr_left (fun a _ => ?_)
  simp only [Function.comp_apply]
  split <;> rfl

theorem regSetPath_map_fid (reg : List EfiNtfsFile) (fid : Nat) (p : FsPath) :
    (regSetPath reg fid p).map (fun r => r.fid) =
      reg.map (fun r => r.fid) := by
  unfold regSetPath
  rw [List.map_map]
  refine List.map_congr_left (fun a _ => ?_)
  simp only [Function.comp_apply]
  split <;> rfl

theorem mem_regSetInode {reg : List EfiNtfsFile} {fid : Nat} {v : Option Nat}
    {r' : EfiNtfsFile} (h : r' ∈ regSetInode reg fid v) :
    ∃ r ∈ reg, r'.fid = r.fid ∧ r'.Path = r.Path ∧ r'.IsRoot = r.IsRoot ∧
      (r'.NtfsInode = r.NtfsInode ∨ (r'.NtfsInode = v ∧ r.fid = fid)) := by
  rw [regSetInode, List.mem_map] at h
  obtain ⟨r, hr, hEq⟩ := h
  by_cases hf : r.fid == fid
  · refine ⟨r, hr, ?_⟩
    rw [if_pos hf] at hEq
    subst hEq
    exact ⟨rfl, rfl, rfl, Or.inr ⟨rfl, by simpa using hf⟩⟩
  · refine ⟨r, hr, ?_⟩
    rw [if_neg hf] at hEq
    subst hEq
    exact ⟨rfl, rfl, rfl, Or.inl rfl⟩

theorem mem_regSetDirty {reg : List EfiNtfsFile} {fid : Nat} {d1 d2 : Bool}
    {r' : EfiNtfsFile} (h : r' ∈ regSetDirty reg fid d1 d2) :
    ∃ r ∈ reg, r'.fid = r.fid ∧ r'.Path = r.Path ∧ r'.IsRoot = r.IsRoot ∧
      r'.NtfsInode = r.NtfsInode := by
  rw [regSetDirty, List.mem_map] at h
  obtain ⟨r, hr, hEq⟩ := h
  by_cases hf : r.fid == fid
  · rw [if_pos hf] at hEq; subst hEq; exact ⟨r, hr, rfl, rfl, rfl, rfl⟩
  · rw [if_neg hf] at hEq; subst hEq; exact ⟨r, hr, rfl, rfl, rfl, rfl⟩

theorem mem_regSetPath {reg : List EfiNtfsFile} {fid : Nat} {p : FsPath}
    {r' : EfiNtfsFile} (h : r' ∈ regSetPath reg fid p) :
    ∃ r ∈ reg, r'.fid = r.fid ∧ r'.IsRoot = r.IsRoot ∧
      r'.NtfsInode = r.NtfsInode ∧
      ((r'.Path = r.Path ∧ r.fid ≠ fid) ∨ (r'.Path = p ∧ r.fid = fid)) := by
  rw [regSetPath, List.mem_map] at h
  obtain ⟨r, hr, hEq⟩ := h
  by_cases hf : r.fid == fid
  · rw [if_pos hf] at hEq; subst hEq
    exact ⟨r, hr, rfl, rfl, rfl, Or.inr ⟨rfl, by simpa using hf⟩⟩
  · rw [if_neg hf] at hEq; subst hEq
    exact ⟨r, hr, rfl, rfl, rfl, Or.inl ⟨rfl, by simpa using hf⟩⟩

/-! ## Helper lemmas about lookups and paths -/

theorem lookupPath_eq_some {st : VolState} {p : FsPath} {ig : Option Nat}
    {F : EfiNtfsFile} (h : lookupPath st p ig = some F) :
    F ∈ st.reg ∧ ig ≠ some F.fid ∧
      ((p = [] ∧ F.IsRoot = true) ∨ p = F.Path) := by
  refine ⟨List.mem_of_find?_eq_some h, ?_⟩
  have hp := List.find?_some h
  simp only [Bool.and_eq_true, Bool.or_eq_true, Bool.not_eq_true',
    beq_eq_false_iff_ne, ne_eq, List.isEmpty_eq_true, beq_iff_eq] at hp
  tauto

theorem lookupPath_eq_none {st : VolState} {p : FsPath} {ig : Option Nat}
    (h : lookupPath st p ig = none) :
    ∀ r ∈ st.reg, ig = some r.fid ∨
      (¬(p = [] ∧ r.IsRoot = true) ∧ p ≠ r.Path) := by
  rw [lookupPath, List.find?_eq_none] at h
  intro r hr
  have h' := h r hr
  by_cases hig : ig = some r.fid
  · exact Or.inl hig
  · have higF : (ig == some r.fid) = false := by simpa using hig
    refine Or.inr ⟨?_, ?_⟩
    · intro ⟨hp, hroot⟩
      exact h' (by simp [higF, hp, hroot])
    · intro hEq
      exact h' (by simp [higF, hEq])

theorem parentPathOf_length_lt {p : FsPath} (h : p ≠ []) :
    (parentPathOf p).length < p.length := by
  have hdw : (p.reverse.dropWhile (fun c => c ≠ PATH_CHAR)).length ≤ p.length := by
    calc (p.reverse.dropWhile (fun c => c ≠ PATH_CHAR)).length
        ≤ p.reverse.length := (List.dropWhile_sublist _).length_le
      _ = p.length := List.length_reverse _
  have hp : 0 < p.length := List.length_pos.mpr h
  unfold parentPathOf
  rw [List.length_dropLast, List.length_reverse]
  omega

theorem parentPathOf_ne {p : FsPath} (h : p ≠ []) : parentPathOf p ≠ p := by
  intro hEq
  have := parentPathOf_length_lt h
  rw [hEq] at this
  omega

theorem baseNameOf_root : baseNameOf [PATH_CHAR] = [] := by decide

/-! ## From the invariant to the single-open property -/

theorem Inv.handleUnique {st : VolState} (hI : Inv st) :
    HandleUnique st.reg := by
  have hp : st.reg.Pairwise (fun a b => a.Path ≠ b.Path) := by
    have := hI.regPathsND
    rw [List.Nodup, List.pairwise_map] at this
    exact this
  refine hp.imp_of_mem ?_
  intro a b ha hb hne
  cases hao : a.NtfsInode with
  | none => exact Or.inl rfl
  | some i =>
    refine Or.inr ?_
    intro hEq
    have hbo : b.NtfsInode = some i := hEq.symm
    have hA := hI.regHandle a ha i hao
    have hB := hI.regHandle b hb i hbo
    obtain ⟨_, hND, hProper, -⟩ := hI.dWF
    rcases hA with ⟨hA1, hA2⟩ | ⟨ea, hea, heaP, heaI⟩
    · rcases hB with ⟨hB1, _⟩ | ⟨eb, heb, hebP, hebI⟩
      · exact hne (hA1.trans hB1.symm)
      · exact (hProper eb heb).2.2.1 (hebI.trans hA2)
    · rcases hB with ⟨_, hB2⟩ | ⟨eb, heb, hebP, hebI⟩
      · exact (hProper ea hea).2.2.1 (heaI.trans hB2)
      · have : ea = eb :=
          List.inj_on_of_nodup_map hND hea heb (heaI.trans hebI.symm)
        exact hne (heaP.symm.trans (this ▸ hebP))

/-! ## Invariant preservation building blocks -/

theorem regFind_forall_ne {reg : List EfiNtfsFile} {fid : Nat}
    (h : regFind reg fid = none) : ∀ r ∈ reg, r.fid ≠ fid := by
  rw [regFind, List.find?_eq_none] at h
  intro r hr
  simpa using h r hr

theorem regFind_unique {st : VolState} (hI : Inv st) {r : EfiNtfsFile}
    (hr : r ∈ st.reg) {r' : EfiNtfsFile} (hr' : r' ∈ st.reg)
    (h : r.fid = r'.fid) : r = r' :=
  List.inj_on_of_nodup_map hI.regFidsND hr hr' h

theorem diskFind_eq_some {disk : List DiskEntry} {p : FsPath} {e : DiskEntry}
    (h : diskFind disk p = some e) : e ∈ disk ∧ e.path = p := by
  refine ⟨List.mem_of_find?_eq_some h, ?_⟩
  have := List.find?_some h
  simpa using this

theorem diskFind_eq_none {disk : List DiskEntry} {p : FsPath}
    (h : diskFind disk p = none) : ∀ e ∈ disk, e.path ≠ p := by
  rw [diskFind, List.find?_eq_none] at h
  intro e he
  simpa using h e he

theorem openInodeFromPath_cases {st : VolState} {p : FsPath} {i : Nat}
    (h : openInodeFromPath st p = some i) :
    ((p = [] ∨ p = [PATH_CHAR]) ∧ i = rootInum) ∨
    (¬(p = [] ∨ p = [PATH_CHAR]) ∧ ∃ e ∈ st.disk, e.path = p ∧ e.inum = i) := by
  unfold openInodeFromPath at h
  by_cases hc : p.isEmpty || p == [PATH_CHAR]
  · rw [if_pos hc] at h
    exact Or.inl ⟨by simpa using hc, (Option.some.inj h).symm⟩
  · rw [if_neg hc] at h
    refine Or.inr ⟨by simpa using hc, ?_⟩
    cases hd : diskFind st.disk p with
    | none => rw [hd] at h; simp at h
    | some e =>
      rw [hd] at h
      obtain ⟨he, hp⟩ := diskFind_eq_some hd
      exact ⟨e, he, hp, by simpa using h⟩

theorem Inv.remove {st : VolState} (hI : Inv st) (fid : Nat) :
    Inv { st with reg := regRemove st.reg fid } := by
  refine ⟨hI.dWF, ?_, ?_, ?_, ?_, ?_, ?_⟩
  · exact ((regRemove_sublist st.reg fid).map _).nodup hI.regFidsND
  · exact ((regRemove_sublist st.reg fid).map _).nodup hI.regPathsND
  · exact fun r hr => hI.regNonEmpty r (mem_regRemove.mp hr).1
  · exact fun r hr => hI.regRootFlag r (mem_regRemove.mp hr).1
  · exact fun r hr => hI.regOnDisk r (mem_regRemove.mp hr).1
  · exact fun r hr => hI.regHandle r (mem_regRemove.mp hr).1

theorem Inv.setInode {st : VolState} (hI : Inv st) (fid : Nat) (v : Option Nat)
    (hv : ∀ r ∈ st.reg, r.fid = fid → ∀ i, v = some i →
      (r.Path = [PATH_CHAR] ∧ i = rootInum) ∨
      ∃ e ∈ st.disk, e.path = r.Path ∧ e.inum = i) :
    Inv { st with reg := regSetInode st.reg fid v } := by
  refine ⟨hI.dWF, ?_, ?_, ?_, ?_, ?_, ?_⟩
  · show ((regSetInode st.reg fid v).map _).Nodup
    rw [regSetInode_map_fid]; exact hI.regFidsND
  · show ((regSetInode st.reg fid v).map _).Nodup
    rw [regSetInode_map_Path]; exact hI.regPathsND
  · intro r hr
    obtain ⟨r₀, hr₀, _, hPath, _, _⟩ := mem_regSetInode hr
    rw [hPath]; exact hI.regNonEmpty r₀ hr₀
  · intro r hr hro
    obtain ⟨r₀, hr₀, _, hPath, hRoot, _⟩ := mem_regSetInode hr
    rw [hPath]; exact hI.regRootFlag r₀ hr₀ (by rw [← hRoot]; exact hro)
  · intro r hr
    obtain ⟨r₀, hr₀, _, hPath, _, _⟩ := mem_regSetInode hr
    rw [hPath]; exact hI.regOnDisk r₀ hr₀
  · intro r hr i hi
    obtain ⟨r₀, hr₀, _, hPath, _, hN⟩ := mem_regSetInode hr
    rcases hN with hsame | ⟨hv', hf0⟩
    · rw [hPath]; exact hI.regHandle r₀ hr₀ i (by rw [← hsame]; exact hi)
    · rw [hPath]; exact hv r₀ hr₀ hf0 i (by rw [← hv']; exact hi)

theorem Inv.setDirty {st : VolState} (hI : Inv st) (fid : Nat) (d1 d2 : Bool) :
    Inv { st with reg := regSetDirty st.reg fid d1 d2 } := by
  refine ⟨hI.dWF, ?_, ?_, ?_, ?_, ?_, ?_⟩
  · show ((regSetDirty st.reg fid d1 d2).map _).Nodup
    rw [regSetDirty_map_fid]; exact hI.regFidsND
  · show ((regSetDirty st.reg fid d1 d2).map _).Nodup
    rw [regSetDirty_map_Path]; exact hI.regPathsND
  · intro r hr
    obtain ⟨r₀, hr₀, _, hPath, _, _⟩ := mem_regSetDirty hr
    rw [hPath]; exact hI.regNonEmpty r₀ hr₀
  · intro r hr hro
    obtain ⟨r₀, hr₀, _, hPath, hRoot, _⟩ := mem_regSetDirty hr
    rw [hPath]; exact hI.regRootFlag r₀ hr₀ (by rw [← hRoot]; exact hro)
  · intro r hr
    obtain ⟨r₀, hr₀, _, hPath, _, _⟩ := mem_regSetDirty hr
    rw [hPath]; exact hI.regOnDisk r₀ hr₀
  · intro r hr i hi
    obtain ⟨r₀, hr₀, _, hPath, _, hN⟩ := mem_regSetDirty hr
    rw [hPath]; exact hI.regHandle r₀ hr₀ i (by rw [← hN]; exact hi)

/-- Adding a freshly built record to the registry preserves the invariant
under the expected freshness and consistency side conditions. -/
theorem Inv.append {st : VolState} (hI : Inv st) (F : EfiNtfsFile)
    (hfid : ∀ r ∈ st.reg, r.fid ≠ F.fid)
    (hpath : ∀ r ∈ st.reg, r.Path ≠ F.Path)
    (hne : F.Path ≠ [])
    (hroot : F.IsRoot = true → F.Path = [PATH_CHAR])
    (hdisk : F.Path = [PATH_CHAR] ∨ ∃ e ∈ st.disk, e.path = F.Path)
    (hhandle : ∀ i, F.NtfsInode = some i →
      (F.Path = [PATH_CHAR] ∧ i = rootInum) ∨
      ∃ e ∈ st.disk, e.path = F.Path ∧ e.inum = i) :
    Inv { st with reg := st.reg ++ [F] } := by
  refine ⟨hI.dWF, ?_, ?_, ?_, ?_, ?_, ?_⟩
  · show ((st.reg ++ [F]).map (fun r => r.fid)).Nodup
    rw [List.map_append, List.nodup_append]
    refine ⟨hI.regFidsND, by simp, ?_⟩
    intro x hx
    simp only [List.map_cons, List.map_nil, List.mem_singleton]
    rw [List.mem_map] at hx
    obtain ⟨r, hr, hrx⟩ := hx
    intro hEq
    exact hfid r hr (by rw [← hrx] at hEq; exact hEq)
  · show ((st.reg ++ [F]).map (fun r => r.Path)).Nodup
    rw [List.map_append, List.nodup_append]
    refine ⟨hI.regPathsND, by simp, ?_⟩
    intro x hx
    simp only [List.map_cons, List.map_nil, List.mem_singleton]
    rw [List.mem_map] at hx
    obtain ⟨r, hr, hrx⟩ := hx
    intro hEq
    exact hpath r hr (by rw [← hrx] at hEq; exact hEq)
  · intro r hr
    rcases List.mem_append.mp hr with h | h
    · exact hI.regNonEmpty r h
    · rw [List.mem_singleton.mp h]; exact hne
  · intro r hr
    rcases List.mem_append.mp hr with h | h
    · exact hI.regRootFlag r h
    · rw [List.mem_singleton.mp h]; exact hroot
  · intro r hr
    rcases List.mem_append.mp hr with h | h
    · exact hI.regOnDisk r h
    · rw [List.mem_singleton.mp h]; exact hdisk
  · intro r hr
    rcases List.mem_append.mp hr with h | h
    · exact hI.regHandle r h
    · rw [List.mem_singleton.mp h]; exact hhandle

/-- Extending the name tree with a fresh entry (the `ntfs_create` case)
preserves the invariant. -/
theorem Inv.diskAppend {st : VolState} (hI : Inv st) (e : DiskEntry) (n : Nat)
    (hpne : ∀ e' ∈ st.disk, e'.path ≠ e.path)
    (hproper : e.path ≠ [] ∧ e.path ≠ [PATH_CHAR])
    (hinum : ∀ e' ∈ st.disk, e'.inum ≠ e.inum)
    (hroot : e.inum ≠ rootInum)
    (hn : e.inum < n) (hmono : st.nextInum ≤ n) :
    Inv { st with disk := st.disk ++ [e], nextInum := n } := by
  obtain ⟨hND1, hND2, hprop, hrfresh⟩ := hI.dWF
  refine ⟨⟨?_, ?_, ?_, ?_⟩, hI.regFidsND, hI.regPathsND, hI.regNonEmpty,
    hI.regRootFlag, ?_, ?_⟩
  · show ((st.disk ++ [e]).map (fun x => x.path)).Nodup
    rw [List.map_append, List.nodup_append]
    refine ⟨hND1, by simp, ?_⟩
    intro x hx
    simp only [List.map_cons, List.map_nil, List.mem_singleton]
    rw [List.mem_map] at hx
    obtain ⟨e', he', hx'⟩ := hx
    intro hEq
    exact hpne e' he' (by rw [← hx'] at hEq; exact hEq)
  · show ((st.disk ++ [e]).map (fun x => x.inum)).Nodup
    rw [List.map_append, List.nodup_append]
    refine ⟨hND2, by simp, ?_⟩
    intro x hx
    simp only [List.map_cons, List.map_nil, List.mem_singleton]
    rw [List.mem_map] at hx
    obtain ⟨e', he', hx'⟩ := hx
    intro hEq
    exact hinum e' he' (by rw [← hx'] at hEq; exact hEq)
  · intro e' he'
    rcases List.mem_append.mp he' with h | h
    · have h4 := hprop e' h
      refine ⟨h4.1, h4.2.1, h4.2.2.1, ?_⟩
      show e'.inum < n
      have := h4.2.2.2
      omega
    · rw [List.mem_singleton.mp h]
      exact ⟨hproper.1, hproper.2, hroot, hn⟩
  · show rootInum < n
    omega
  · intro r hr
    rcases hI.regOnDisk r hr with h | ⟨e', he', hp'⟩
    · exact Or.inl h
    · exact Or.inr ⟨e', List.mem_append.mpr (Or.inl he'), hp'⟩
  · intro r hr i hi
    rcases hI.regHandle r hr i hi with h | ⟨e', he', hp', hi'⟩
    · exact Or.inl h
    · exact Or.inr ⟨e', List.mem_append.mpr (Or.inl he'), hp', hi'⟩

/-! ## Invariant preservation, operation by operation -/

theorem inv_open {st : VolState} (hI : Inv st) {fid : Nat} {p : FsPath}
    (hp : p ≠ []) (hf : regFind st.reg fid = none) :
    Inv (NtfsOpenFile st fid p).1 := by
  unfold NtfsOpenFile
  cases hlk : lookupPath st p none with
  | some F => exact hI
  | none =>
    cases hoi : openInodeFromPath st p with
    | none => exact hI
    | some i =>
      refine Inv.append hI _ ?_ ?_ ?_ ?_ ?_ ?_
      · exact regFind_forall_ne hf
      · intro r hr
        rcases lookupPath_eq_none hlk r hr with h | ⟨_, h⟩
        · simp at h
        · exact fun hEq => h (by rw [hEq])
      · exact hp
      · intro h
        simpa using h
      · rcases openInodeFromPath_cases hoi with ⟨hor, _⟩ | ⟨_, e, he, hp', _⟩
        · rcases hor with h | h
          · exact absurd h hp
          · exact Or.inl h
        · exact Or.inr ⟨e, he, hp'⟩
      · intro j hj
        have hj' : i = j := by simpa using hj
        subst hj'
        rcases openInodeFromPath_cases hoi with ⟨hor, hroot⟩ | ⟨_, e, he, hp', hi'⟩
        · rcases hor with h | h
          · exact absurd h hp
          · exact Or.inl ⟨h, hroot⟩
        · exact Or.inr ⟨e, he, hp', hi'⟩

theorem inv_create (fb : FsPath → Bool) {st : VolState} (hI : Inv st)
    {fid : Nat} {p : FsPath} {isDir : Bool}
    (hp : p ≠ []) (hb : baseNameOf p ≠ [])
    (hf : regFind st.reg fid = none) :
    Inv (NtfsCreateFile fb st fid p isDir).1 := by
  have hpathNe : lookupPath st p none = none →
      ∀ r ∈ st.reg, r.Path ≠ p := by
    intro hlk r hr
    rcases lookupPath_eq_none hlk r hr with h | ⟨_, h⟩
    · simp at h
    · exact fun hEq => h (by rw [hEq])
  have hsep : p ≠ [PATH_CHAR] := by
    intro hEq
    rw [hEq] at hb
    exact hb baseNameOf_root
  unfold NtfsCreateFile
  cases hlk : lookupPath st p none with
  | some F =>
    dsimp only
    split <;> exact hI
  | none =>
    dsimp only
    by_cases hfb : fb (baseNameOf p)
    · rw [if_pos hfb]; exact hI
    · rw [if_neg hfb]
      cases hdi : (match lookupPath st (parentPathOf p) (some fid) with
        | some P => P.NtfsInode
        | none => openInodeFromPath st (parentPathOf p)) with
      | none => exact hI
      | some di =>
        dsimp only
        by_cases hx : di == extendInum
        · rw [if_pos hx]; exact hI
        · rw [if_neg hx]
          cases he : diskFind st.disk p with
          | some e =>
            dsimp only
            by_cases hm : e.isDir != isDir
            · rw [if_pos hm]; exact hI
            · rw [if_neg hm]
              obtain ⟨heMem, hePath⟩ := diskFind_eq_some he
              refine Inv.append hI _ ?_ ?_ hp ?_ ?_ ?_
              · exact regFind_forall_ne hf
              · exact hpathNe hlk
              · intro h; simp at h
              · exact Or.inr ⟨e, heMem, hePath⟩
              · intro j hj
                have : e.inum = j := by simpa using hj
                subst this
                exact Or.inr ⟨e, heMem, hePath, rfl⟩
          | none =>
            have hI' := Inv.diskAppend hI ⟨p, st.nextInum, isDir⟩
              (st.nextInum + 1)
              (fun e' he' hEq => diskFind_eq_none he e' he' hEq)
              ⟨hp, hsep⟩
              (fun e' he' => by
                show e'.inum ≠ st.nextInum
                have := (hI.dWF.2.2.1 e' he').2.2.2
                omega)
              (by
                show st.nextInum ≠ rootInum
                have := hI.dWF.2.2.2
                omega)
              (by show st.nextInum < st.nextInum + 1; omega)
              (by omega)
            refine Inv.append hI' _ ?_ ?_ hp ?_ ?_ ?_
            · exact regFind_forall_ne hf
            · exact hpathNe hlk
            · intro h; simp at h
            · exact Or.inr ⟨⟨p, st.nextInum, isDir⟩,
                List.mem_append.mpr (Or.inr (List.mem_singleton.mpr rfl)), rfl⟩
            · intro j hj
              have : st.nextInum = j := by simpa using hj
              subst this
              exact Or.inr ⟨⟨p, st.nextInum, isDir⟩,
                List.mem_append.mpr (Or.inr (List.mem_singleton.mpr rfl)),
                rfl, rfl⟩

/-- Two registered records with the same path are the same record. -/
theorem regPath_unique {st : VolState} (hI : Inv st) {r : EfiNtfsFile}
    (hr : r ∈ st.reg) {r' : EfiNtfsFile} (hr' : r' ∈ st.reg)
    (h : r.Path = r'.Path) : r = r' :=
  List.inj_on_of_nodup_map hI.regPathsND hr hr' h

theorem mem_regSetInode_of_ne {reg : List EfiNtfsFile} {fid : Nat}
    {v : Option Nat} {r : EfiNtfsFile} (hr : r ∈ reg) (hne : r.fid ≠ fid) :
    r ∈ regSetInode reg fid v := by
  rw [regSetInode, List.mem_map]
  exact ⟨r, hr, by rw [if_neg (by simpa using hne)]⟩

/-- The combined effect of `ntfs_delete` succeeding on a registered record:
the record leaves the registry and its path leaves the name tree. -/
theorem Inv.removeAndErase {st : VolState} (hI : Inv st) {F : EfiNtfsFile}
    (hFmem : F ∈ st.reg) :
    Inv { st with reg := regRemove st.reg F.fid,
                  disk := st.disk.filter (fun e => e.path != F.Path) } := by
  obtain ⟨hND1, hND2, hprop, hrf⟩ := hI.dWF
  have hOther : ∀ r ∈ st.reg, r.fid ≠ F.fid → r.Path ≠ F.Path := by
    intro r hr hne hEq
    exact hne (congrArg EfiNtfsFile.fid (regPath_unique hI hr hFmem hEq))
  have hfilter : ∀ e ∈ st.disk, e.path ≠ F.Path →
      e ∈ st.disk.filter (fun e => e.path != F.Path) := by
    intro e he hne
    rw [List.mem_filter]
    exact ⟨he, by simpa using hne⟩
  refine ⟨⟨?_, ?_, ?_, hrf⟩, ?_, ?_, ?_, ?_, ?_, ?_⟩
  · exact ((List.filter_sublist _).map _).nodup hND1
  · exact ((List.filter_sublist _).map _).nodup hND2
  · intro e he
    exact hprop e (List.mem_of_mem_filter he)
  · exact ((regRemove_sublist st.reg F.fid).map _).nodup hI.regFidsND
  · exact ((regRemove_sublist st.reg F.fid).map _).nodup hI.regPathsND
  · exact fun r hr => hI.regNonEmpty r (mem_regRemove.mp hr).1
  · exact fun r hr => hI.regRootFlag r (mem_regRemove.mp hr).1
  · intro r hr
    obtain ⟨hrm, hrne⟩ := mem_regRemove.mp hr
    rcases hI.regOnDisk r hrm with h | ⟨e, he, hp⟩
    · exact Or.inl h
    · refine Or.inr ⟨e, hfilter e he ?_, hp⟩
      rw [hp]
      exact hOther r hrm hrne
  · intro r hr i hi
    obtain ⟨hrm, hrne⟩ := mem_regRemove.mp hr
    rcases hI.regHandle r hrm i hi with h | ⟨e, he, hp, hin⟩
    · exact Or.inl h
    · refine Or.inr ⟨e, hfilter e he ?_, hp, hin⟩
      rw [hp]
      exact hOther r hrm hrne

/-- Detaching any record's engine handle preserves the invariant. -/
theorem Inv.setInodeNone {st : VolState} (hI : Inv st) (g : Nat) :
    Inv { st with reg := regSetInode st.reg g none } :=
  Inv.setInode hI g none (by intro _ _ _ i hi; simp at hi)

theorem fidPath_base {st : VolState} (hI : Inv st) {P : EfiNtfsFile}
    (hPmem : P ∈ st.reg) :
    ∀ r ∈ st.reg, r.fid = P.fid → r.Path = P.Path :=
  fun _ hr hrf =>
    congrArg EfiNtfsFile.Path (regFind_unique hI hr hPmem hrf)

theorem fidPath_regSetInode {reg : List EfiNtfsFile} {g : Nat} {q : FsPath}
    (h : ∀ r ∈ reg, r.fid = g → r.Path = q) (f : Nat) (v : Option Nat) :
    ∀ r ∈ regSetInode reg f v, r.fid = g → r.Path = q := by
  intro r hr hrf
  obtain ⟨r₀, hr₀, hfid, hPath, _, _⟩ := mem_regSetInode hr
  rw [hPath]
  exact h r₀ hr₀ (by omega)

theorem fidPath_regRemove {reg : List EfiNtfsFile} {g : Nat} {q : FsPath}
    (h : ∀ r ∈ reg, r.fid = g → r.Path = q) (f : Nat) :
    ∀ r ∈ regRemove reg f, r.fid = g → r.Path = q :=
  fun r hr hrf => h r (mem_regRemove.mp hr).1 hrf

/-- The argument `Inv.setInode` needs when a temporarily released parent or
grandparent record is reopened by its remembered inode number after the
deleted record's name has been erased from the name tree. -/
theorem restore_after_erase {st : VolState} (hI : Inv st) {P : EfiNtfsFile}
    (hPmem : P ∈ st.reg) {pi : Nat} (hpn : P.NtfsInode = some pi)
    {q : FsPath} (hPF : P.Path ≠ q) {reg' : List EfiNtfsFile}
    (hpath : ∀ r ∈ reg', r.fid = P.fid → r.Path = P.Path) :
    ∀ r ∈ reg', r.fid = P.fid → ∀ k, (some pi : Option Nat) = some k →
    (r.Path = [PATH_CHAR] ∧ k = rootInum) ∨
    ∃ e ∈ st.disk.filter (fun e => e.path != q),
      e.path = r.Path ∧ e.inum = k := by
  intro r hr hrf k hk
  have hk' : pi = k := by simpa using hk
  subst hk'
  rw [hpath r hr hrf]
  rcases hI.regHandle P hPmem pi hpn with h | ⟨e, he, hp, hin⟩
  · exact Or.inl h
  · refine Or.inr ⟨e, ?_, hp, hin⟩
    rw [List.mem_filter]
    refine ⟨he, ?_⟩
    simp only [bne_iff_ne, ne_eq, hp]
    exact hPF

theorem inv_delete {st : VolState} (hI : Inv st) (fid : Nat)
    (delOk rP rGP : Bool) (reErr : Errno) :
    Inv (NtfsDeleteFile st fid delOk rP rGP reErr).1 := by
  cases hF : regFind st.reg fid with
  | none => simp only [NtfsDeleteFile, hF]; exact hI
  | some F =>
    obtain ⟨hFmem, hFfid⟩ := mem_of_regFind hF
    cases hlp : lookupParentOf st F with
    | none =>
      cases hoi : openInodeFromPath st (parentPathOf F.Path) with
      | none => simp only [NtfsDeleteFile, hF, hlp, hoi]; exact hI
      | some di =>
        by_cases hx : di == extendInum
        · simp only [NtfsDeleteFile, hF, hlp, hoi, hx, if_true]; exact hI
        · by_cases hs : delOk && F.NtfsInode.isSome
            && !(baseNameOf F.Path).isEmpty
          · simp only [NtfsDeleteFile, hF, hlp, hoi, hx, hs,
              Bool.false_eq_true, if_true, if_false]
            have := Inv.removeAndErase hI hFmem
            rw [hFfid] at this
            exact this
          · have hs' : (delOk && F.NtfsInode.isSome
                && !(baseNameOf F.Path).isEmpty) = false := by simpa using hs
            simp only [NtfsDeleteFile, hF, hlp, hoi, hx, hs',
              Bool.false_eq_true, if_true, if_false]
            exact Inv.remove hI fid
    | some P =>
      obtain ⟨hPmem, hPig, hPmatch⟩ := lookupPath_eq_some hlp
      have hPfid : P.fid ≠ F.fid := fun hEq => hPig (by rw [hEq])
      have hPF : P.Path ≠ F.Path := by
        intro hEq
        exact hPfid (congrArg EfiNtfsFile.fid (regPath_unique hI hPmem hFmem hEq))
      cases hpn : P.NtfsInode with
      | none => simp only [NtfsDeleteFile, hF, hlp, hpn]; exact hI
      | some pi =>
        -- Inv for the two intermediate states that appear in every branch
        have hI2 : Inv { st with reg := regSetInode st.reg P.fid none } :=
          Inv.setInodeNone hI P.fid
        have hFmem2 : F ∈ regSetInode st.reg P.fid none :=
          mem_regSetInode_of_ne hFmem (fun h => hPfid h.symm)
        have hI3' := Inv.removeAndErase hI2 (F := F) hFmem2
        rw [hFfid] at hI3'
        have hPagain : ∀ r ∈ regRemove (regSetInode st.reg P.fid none) fid,
            r.fid = P.fid → r.Path = P.Path :=
          fidPath_regRemove (fidPath_regSetInode (fidPath_base hI hPmem) _ _) _
        cases hgp : lookupParentOf st P with
        | none =>
          by_cases hx : pi == extendInum
          · simp only [NtfsDeleteFile, hF, hlp, hpn, hgp, hx, if_true]
            exact hI
          · by_cases hs : delOk && F.NtfsInode.isSome
              && !(baseNameOf F.Path).isEmpty
            · by_cases hrp : rP
              · simp only [NtfsDeleteFile, hF, hlp, hpn, hgp, hx, hs, hrp,
                  Bool.false_eq_true, if_true, if_false]
                exact Inv.setInode hI3' P.fid (some pi)
                  (restore_after_erase hI hPmem hpn hPF hPagain)
              · have hrp' : rP = false := by simpa using hrp
                simp only [NtfsDeleteFile, hF, hlp, hpn, hgp, hx, hs, hrp',
                  Bool.false_eq_true, if_true, if_false]
                exact Inv.remove hI3' P.fid
            · have hs' : (delOk && F.NtfsInode.isSome
                  && !(baseNameOf F.Path).isEmpty) = false := by simpa using hs
              simp only [NtfsDeleteFile, hF, hlp, hpn, hgp, hx, hs',
                Bool.false_eq_true, if_true, if_false]
              exact Inv.remove hI2 fid
        | some GP =>
          obtain ⟨hGPmem, hGPig, hGPmatch⟩ := lookupPath_eq_some hgp
          by_cases hgr : GP.IsRoot
          · by_cases hx : pi == extendInum
            · simp only [NtfsDeleteFile, hF, hlp, hpn, hgp, hgr, hx, if_true]
              exact hI
            · by_cases hs : delOk && F.NtfsInode.isSome
                && !(baseNameOf F.Path).isEmpty
              · by_cases hrp : rP
                · simp only [NtfsDeleteFile, hF, hlp, hpn, hgp, hgr, hx, hs, hrp,
                    Bool.false_eq_true, if_true, if_false]
                  exact Inv.setInode hI3' P.fid (some pi)
                    (restore_after_erase hI hPmem hpn hPF hPagain)
                · have hrp' : rP = false := by simpa using hrp
                  simp only [NtfsDeleteFile, hF, hlp, hpn, hgp, hgr, hx, hs, hrp',
                    Bool.false_eq_true, if_true, if_false]
                  exact Inv.remove hI3' P.fid
              · have hs' : (delOk && F.NtfsInode.isSome
                    && !(baseNameOf F.Path).isEmpty) = false := by simpa using hs
                simp only [NtfsDeleteFile, hF, hlp, hpn, hgp, hgr, hx, hs',
                  Bool.false_eq_true, if_true, if_false]
                exact Inv.remove hI2 fid
          · have hgr' : GP.IsRoot = false := by simpa using hgr
            have hGPfid : GP.fid ≠ P.fid := fun hEq => hGPig (by rw [hEq])
            have hGPpath : GP.Path = parentPathOf P.Path := by
              rcases hGPmatch with ⟨_, hb⟩ | hEq
              · rw [hgr'] at hb; cases hb
              · exact hEq.symm
            have hGPF : GP.fid ≠ F.fid := by
              intro hEq
              have hGF : GP = F := regFind_unique hI hGPmem hFmem hEq
              rcases hPmatch with ⟨hpe, hroot⟩ | hpe
              · have hP' : P.Path = [PATH_CHAR] := hI.regRootFlag P hPmem hroot
                rw [hP'] at hGPpath
                have hz : parentPathOf [PATH_CHAR] = [] := by decide
                rw [hz] at hGPpath
                exact hI.regNonEmpty GP hGPmem hGPpath
              · have h1 : (parentPathOf F.Path).length < F.Path.length :=
                  parentPathOf_length_lt (hI.regNonEmpty F hFmem)
                have h2 : (parentPathOf P.Path).length < P.Path.length :=
                  parentPathOf_length_lt (hI.regNonEmpty P hPmem)
                have e1 : GP.Path.length = (parentPathOf P.Path).length := by
                  rw [hGPpath]
                have e2 : (parentPathOf F.Path).length = P.Path.length := by
                  rw [hpe]
                have e3 : GP.Path.length = F.Path.length := by rw [hGF]
                omega
            have hGPpathF : GP.Path ≠ F.Path := fun hEq =>
              hGPF (congrArg EfiNtfsFile.fid (regPath_unique hI hGPmem hFmem hEq))
            cases hgn : GP.NtfsInode with
            | none =>
              by_cases hx : pi == extendInum
              · simp only [NtfsDeleteFile, hF, hlp, hpn, hgp, hgr', hgn, hx,
                  Bool.false_eq_true, if_true, if_false]
                exact hI
              · by_cases hs : delOk && F.NtfsInode.isSome
                  && !(baseNameOf F.Path).isEmpty
                · by_cases hrp : rP
                  · simp only [NtfsDeleteFile, hF, hlp, hpn, hgp, hgr', hgn, hx,
                      hs, hrp, Bool.false_eq_true, if_true, if_false]
                    exact Inv.setInode hI3' P.fid (some pi)
                      (restore_after_erase hI hPmem hpn hPF hPagain)
                  · have hrp' : rP = false := by simpa using hrp
                    simp only [NtfsDeleteFile, hF, hlp, hpn, hgp, hgr', hgn, hx,
                      hs, hrp', Bool.false_eq_true, if_true, if_false]
                    exact Inv.remove hI3' P.fid
                · have hs' : (delOk && F.NtfsInode.isSome
                      && !(baseNameOf F.Path).isEmpty) = false := by simpa using hs
                  simp only [NtfsDeleteFile, hF, hlp, hpn, hgp, hgr', hgn, hx, hs',
                    Bool.false_eq_true, if_true, if_false]
                  exact Inv.remove hI2 fid
            | some gi =>
              -- full grandparent dance
              have hI1 := Inv.setInodeNone hI GP.fid
              have hI2' := Inv.setInodeNone hI1 P.fid
              have hFmem2' : F ∈ regSetInode (regSetInode st.reg GP.fid none)
                  P.fid none :=
                mem_regSetInode_of_ne
                  (mem_regSetInode_of_ne hFmem (fun h => hGPF h.symm))
                  (fun h => hPfid h.symm)
              have hI3'' := Inv.removeAndErase hI2' (F := F) hFmem2'
              rw [hFfid] at hI3''
              have hPagain' : ∀ r ∈ regRemove (regSetInode
                  (regSetInode st.reg GP.fid none) P.fid none) fid,
                  r.fid = P.fid → r.Path = P.Path :=
                fidPath_regRemove (fidPath_regSetInode
                  (fidPath_regSetInode (fidPath_base hI hPmem) _ _) _ _) _
              by_cases hx : pi == extendInum
              · simp only [NtfsDeleteFile, hF, hlp, hpn, hgp, hgr', hgn, hx,
                  if_true]
                exact hI1
              · by_cases hs : delOk && F.NtfsInode.isSome
                  && !(baseNameOf F.Path).isEmpty
                · by_cases hrp : rP
                  · have hI4 := Inv.setInode hI3'' P.fid (some pi)
                      (restore_after_erase hI hPmem hpn hPF hPagain')
                    by_cases hrg : rGP
                    · simp only [NtfsDeleteFile, hF, hlp, hpn, hgp, hgr', hgn,
                        hx, hs, hrp, hrg, Bool.false_eq_true, if_true, if_false]
                      refine Inv.setInode hI4 GP.fid (some gi) ?_
                      refine restore_after_erase hI hGPmem hgn hGPpathF ?_
                      exact fidPath_regSetInode (fidPath_regRemove
                        (fidPath_regSetInode (fidPath_regSetInode
                          (fidPath_base hI hGPmem) _ _) _ _) _) _ _
                    · have hrg' : rGP = false := by simpa using hrg
                      simp only [NtfsDeleteFile, hF, hlp, hpn, hgp, hgr', hgn,
                        hx, hs, hrp, hrg', Bool.false_eq_true, if_true, if_false]
                      exact Inv.remove hI4 GP.fid
                  · have hrp' : rP = false := by simpa using hrp
                    simp only [NtfsDeleteFile, hF, hlp, hpn, hgp, hgr', hgn,
                      hx, hs, hrp', Bool.false_eq_true, if_true, if_false]
                    exact Inv.remove hI3'' P.fid
                · have hs' : (delOk && F.NtfsInode.isSome
                      && !(baseNameOf F.Path).isEmpty) = false := by simpa using hs
                  simp only [NtfsDeleteFile, hF, hlp, hpn, hgp, hgr', hgn, hx, hs',
                    Bool.false_eq_true, if_true, if_false]
                  exact Inv.remove hI2' fid

theorem baseNameOf_nil : baseNameOf ([] : FsPath) = [] := rfl

/-- The net state of a successful `NtfsMoveFile` keeps the invariant: the
moved record's name migrates in the name tree together with its path. -/
theorem Inv.moveSuccess {st : VolState} (hI : Inv st) {F : EfiNtfsFile}
    (hFmem : F ∈ st.reg) {fid : Nat} (hFfid : F.fid = fid)
    (hFbase : baseNameOf F.Path ≠ [])
    {i : Nat} (hFn : F.NtfsInode = some i)
    {newPath : FsPath} (hdf : diskFind st.disk newPath = none)
    (hnb : baseNameOf newPath ≠ []) (d : Bool) :
    Inv { st with
          reg := regSetPath st.reg fid newPath,
          disk := (st.disk.filter (fun e => e.path != F.Path)) ++
            [⟨newPath, i, d⟩] } := by
  obtain ⟨hND1, hND2, hprop, hrf⟩ := hI.dWF
  have hnpD : ∀ e ∈ st.disk, e.path ≠ newPath := diskFind_eq_none hdf
  have hnpE : newPath ≠ [] := by
    intro hEq; rw [hEq] at hnb; exact hnb baseNameOf_nil
  have hnpS : newPath ≠ [PATH_CHAR] := by
    intro hEq; rw [hEq] at hnb; exact hnb baseNameOf_root
  have hFsep : F.Path ≠ [PATH_CHAR] := by
    intro hEq; rw [hEq] at hFbase; exact hFbase baseNameOf_root
  have he0 : ∃ e ∈ st.disk, e.path = F.Path ∧ e.inum = i := by
    rcases hI.regHandle F hFmem i hFn with ⟨hsep, _⟩ | h
    · exact absurd hsep hFsep
    · exact h
  obtain ⟨e0, he0m, he0p, he0i⟩ := he0
  have hiRoot : i ≠ rootInum := by
    have := (hprop e0 he0m).2.2.1; omega
  have hiFresh : i < st.nextInum := by
    have := (hprop e0 he0m).2.2.2; rw [he0i] at this; exact this
  have hOther : ∀ r ∈ st.reg, r.fid ≠ fid → r.Path ≠ F.Path := by
    intro r hr hne hEq
    exact hne (by
      rw [congrArg EfiNtfsFile.fid (regPath_unique hI hr hFmem hEq)]
      exact hFfid)
  have hregNP : ∀ b ∈ st.reg, b.Path ≠ newPath := by
    intro b hb hEq
    rcases hI.regOnDisk b hb with h | ⟨e, he, hp⟩
    · rw [h] at hEq; exact hnpS hEq.symm
    · exact hnpD e he (by rw [hp, hEq])
  have hfilter : ∀ e ∈ st.disk, e.path ≠ F.Path →
      e ∈ st.disk.filter (fun e => e.path != F.Path) := by
    intro e he hne
    rw [List.mem_filter]
    exact ⟨he, by simpa using hne⟩
  have hchanged : ∀ r ∈ st.reg, r.fid = fid → r = F := by
    intro r hr hrf
    exact regFind_unique hI hr hFmem (by omega)
  refine ⟨⟨?_, ?_, ?_, hrf⟩, ?_, ?_, ?_, ?_, ?_, ?_⟩
  · show (((st.disk.filter (fun (e : DiskEntry) => e.path != F.Path)) ++
        [DiskEntry.mk newPath i d]).map (fun (e : DiskEntry) => e.path)).Nodup
    rw [List.map_append, List.nodup_append]
    refine ⟨((List.filter_sublist _).map _).nodup hND1, by simp, ?_⟩
    intro x hx
    simp only [List.map_cons, List.map_nil, List.mem_singleton]
    rw [List.mem_map] at hx
    obtain ⟨e, he, hx'⟩ := hx
    intro hEq
    exact hnpD e (List.mem_of_mem_filter he) (by rw [← hx'] at hEq; exact hEq)
  · show (((st.disk.filter (fun (e : DiskEntry) => e.path != F.Path)) ++
        [DiskEntry.mk newPath i d]).map (fun (e : DiskEntry) => e.inum)).Nodup
    rw [List.map_append, List.nodup_append]
    refine ⟨((List.filter_sublist _).map _).nodup hND2, by simp, ?_⟩
    intro x hx
    simp only [List.map_cons, List.map_nil, List.mem_singleton]
    rw [List.mem_map] at hx
    obtain ⟨e, he, hx'⟩ := hx
    intro hEq
    have heq2 : e.inum = i := by rw [← hx'] at hEq; exact hEq
    have heF : e = e0 := List.inj_on_of_nodup_map hND2
      (List.mem_of_mem_filter he) he0m (by rw [heq2, he0i])
    rw [List.mem_filter] at he
    have hpneq : (e.path != F.Path) = true := he.2
    rw [heF, he0p] at hpneq
    simp at hpneq
  · intro e he
    rcases List.mem_append.mp he with h | h
    · exact hprop e (List.mem_of_mem_filter h)
    · rw [List.mem_singleton.mp h]
      exact ⟨hnpE, hnpS, hiRoot, hiFresh⟩
  · show ((regSetPath st.reg fid newPath).map (fun r => r.fid)).Nodup
    rw [regSetPath_map_fid]; exact hI.regFidsND
  · show ((regSetPath st.reg fid newPath).map (fun r => r.Path)).Nodup
    rw [regSetPath, List.map_map, List.Nodup, List.pairwise_map]
    have hfidsPW : st.reg.Pairwise (fun a b => a.fid ≠ b.fid) := by
      have := hI.regFidsND
      rw [List.Nodup, List.pairwise_map] at this
      exact this
    have hpathsPW : st.reg.Pairwise (fun a b => a.Path ≠ b.Path) := by
      have := hI.regPathsND
      rw [List.Nodup, List.pairwise_map] at this
      exact this
    refine (hfidsPW.and hpathsPW).imp_of_mem ?_
    intro a b ha hb hab
    simp only [Function.comp_apply]
    by_cases hA : a.fid == fid <;> by_cases hB : b.fid == fid
    · exact absurd (by
        have h1 : a.fid = fid := by simpa using hA
        have h2 : b.fid = fid := by simpa using hB
        omega) hab.1
    · rw [if_pos hA, if_neg hB]
      intro hEq
      exact hregNP b hb hEq.symm
    · rw [if_neg hA, if_pos hB]
      intro hEq
      exact hregNP a ha hEq
    · rw [if_neg hA, if_neg hB]
      exact hab.2
  · intro r hr
    obtain ⟨r₀, hr₀, _, _, _, hP⟩ := mem_regSetPath hr
    rcases hP with ⟨hPa, _⟩ | ⟨hPa, _⟩
    · rw [hPa]; exact hI.regNonEmpty r₀ hr₀
    · rw [hPa]; exact hnpE
  · intro r hr hro
    obtain ⟨r₀, hr₀, _, hRoot, _, hP⟩ := mem_regSetPath hr
    rcases hP with ⟨hPa, _⟩ | ⟨hPa, hf0⟩
    · rw [hPa]; exact hI.regRootFlag r₀ hr₀ (by rw [← hRoot]; exact hro)
    · have : r₀ = F := hchanged r₀ hr₀ hf0
      subst this
      have : r₀.Path = [PATH_CHAR] :=
        hI.regRootFlag r₀ hr₀ (by rw [← hRoot]; exact hro)
      exact absurd this hFsep
  · intro r hr
    obtain ⟨r₀, hr₀, hfid0, _, _, hP⟩ := mem_regSetPath hr
    rcases hP with ⟨hPa, hne0⟩ | ⟨hPa, _⟩
    · rcases hI.regOnDisk r₀ hr₀ with h | ⟨e, he, hp⟩
      · exact Or.inl (by rw [hPa]; exact h)
      · refine Or.inr ⟨e, List.mem_append.mpr (Or.inl (hfilter e he ?_)),
          by rw [hPa]; exact hp⟩
        rw [hp]
        exact hOther r₀ hr₀ hne0
    · exact Or.inr ⟨⟨newPath, i, d⟩,
        List.mem_append.mpr (Or.inr (List.mem_singleton.mpr rfl)),
        by rw [hPa]⟩
  · intro r hr k hk
    obtain ⟨r₀, hr₀, hfid0, _, hNI, hP⟩ := mem_regSetPath hr
    rcases hP with ⟨hPa, hne0⟩ | ⟨hPa, hf0⟩
    · rcases hI.regHandle r₀ hr₀ k (by rw [← hNI]; exact hk) with ⟨h1, h2⟩ | ⟨e, he, hp, hin⟩
      · exact Or.inl ⟨by rw [hPa]; exact h1, h2⟩
      · refine Or.inr ⟨e, List.mem_append.mpr (Or.inl (hfilter e he ?_)),
          by rw [hPa]; exact hp, hin⟩
        rw [hp]
        exact hOther r₀ hr₀ hne0
    · have hrF : r₀ = F := hchanged r₀ hr₀ hf0
      subst hrF
      have hki : k = i := by
        rw [hNI, hFn] at hk
        simpa using hk.symm
      subst hki
      exact Or.inr ⟨⟨newPath, k, d⟩,
        List.mem_append.mpr (Or.inr (List.mem_singleton.mpr rfl)),
        by rw [hPa], rfl⟩

theorem inv_move (fb : FsPath → Bool) {st : VolState} (hI : Inv st)
    {fid : Nat} {newPath : FsPath}
    (hLegal : (regFind st.reg fid).all
      (fun F => !(baseNameOf F.Path).isEmpty) = true) :
    Inv (NtfsMoveFile fb st fid newPath).1 := by
  cases hF : regFind st.reg fid with
  | none => simp only [NtfsMoveFile, hF]; exact hI
  | some F =>
    obtain ⟨hFmem, hFfid⟩ := mem_of_regFind hF
    have hFbase : baseNameOf F.Path ≠ [] := by
      rw [hF] at hLegal
      simpa using hLegal
    by_cases hpe : F.Path == newPath
    · simp only [NtfsMoveFile, hF, hpe, if_true]; exact hI
    · have hpe' : (F.Path == newPath) = false := by simpa using hpe
      by_cases hd : IS_DIRTY F
      · simp only [NtfsMoveFile, hF, hpe', hd, Bool.false_eq_true, if_true,
          if_false]
        exact hI
      · have hd' : IS_DIRTY F = false := by simpa using hd
        have hSucc : ∀ (j : Nat), F.NtfsInode = some j →
            diskFind st.disk newPath = none →
            (baseNameOf newPath).isEmpty = false →
            Inv { st with
              reg := regSetPath st.reg fid newPath,
              disk := (st.disk.filter (fun e => e.path != F.Path)) ++
                [⟨newPath, j,
                  ((diskFind st.disk F.Path).map
                    (fun e => e.isDir)).getD F.IsDir⟩] } := by
          intro j hj hdf hnb
          exact Inv.moveSuccess hI hFmem hFfid hFbase hj hdf
            (by simpa using hnb) _
        cases hlp : lookupParentOf st F with
        | none =>
          cases hoi : openInodeFromPath st (parentPathOf F.Path) with
          | none =>
            simp only [NtfsMoveFile, hF, hpe', hd', Bool.false_eq_true,
              if_false, hlp, hoi]
            exact hI
          | some pidir =>
            by_cases hfb : fb (baseNameOf newPath)
            · simp only [NtfsMoveFile, hF, hpe', hd', Bool.false_eq_true,
                if_false, hlp, hoi, hfb, if_true]
              exact hI
            · have hfb' : fb (baseNameOf newPath) = false := by simpa using hfb
              by_cases hsd : parentPathOf newPath == parentPathOf F.Path
              · -- same directory
                cases hFn : F.NtfsInode with
                | none =>
                  simp only [NtfsMoveFile, hF, hpe', hd', Bool.false_eq_true,
                    if_false, hlp, hoi, hfb', hsd, if_true, hFn]
                  exact hI
                | some j =>
                  by_cases hlink : (diskFind st.disk newPath).isSome
                    || (baseNameOf newPath).isEmpty
                  · simp only [NtfsMoveFile, hF, hpe', hd', Bool.false_eq_true,
                      if_false, hlp, hoi, hfb', hsd, if_true, hFn, hlink]
                    exact hI
                  · have hl1 : diskFind st.disk newPath = none := by
                      rcases h : diskFind st.disk newPath with _ | e
                      · rfl
                      · rw [h] at hlink; simp at hlink
                    have hl2 : (baseNameOf newPath).isEmpty = false := by
                      rcases h : (baseNameOf newPath).isEmpty
                      · rfl
                      · rw [h] at hlink; simp at hlink
                    have hlink' : ((diskFind st.disk newPath).isSome
                        || (baseNameOf newPath).isEmpty) = false := by
                      rw [hl1, hl2]; rfl
                    simp only [NtfsMoveFile, hF, hpe', hd', Bool.false_eq_true,
                      if_false, hlp, hoi, hfb', hsd, if_true, hFn, hlink']
                    exact hSucc j hFn hl1 hl2
              · -- different directory, parent opened fresh
                have hsd' : (parentPathOf newPath == parentPathOf F.Path)
                    = false := by simpa using hsd
                cases hnl : lookupPath st (parentPathOf newPath) none with
                | some NP =>
                  cases hnpn : NP.NtfsInode with
                  | none =>
                    simp only [NtfsMoveFile, hF, hpe', hd', Bool.false_eq_true,
                      if_false, hlp, hoi, hfb', hsd', hnl, hnpn]
                    exact hI
                  | some np =>
                    cases hFn : F.NtfsInode with
                    | none =>
                      simp only [NtfsMoveFile, hF, hpe', hd',
                        Bool.false_eq_true, if_false, hlp, hoi, hfb', hsd',
                        hnl, hnpn, hFn]
                      exact hI
                    | some j =>
                      by_cases hlink : (diskFind st.disk newPath).isSome
                        || (baseNameOf newPath).isEmpty
                      · simp only [NtfsMoveFile, hF, hpe', hd',
                          Bool.false_eq_true, if_false, hlp, hoi, hfb', hsd',
                          hnl, hnpn, hFn, hlink]
                        exact hI
                      · have hl1 : diskFind st.disk newPath = none := by
                          rcases h : diskFind st.disk newPath with _ | e
                          · rfl
                          · rw [h] at hlink; simp at hlink
                        have hl2 : (baseNameOf newPath).isEmpty = false := by
                          rcases h : (baseNameOf newPath).isEmpty
                          · rfl
                          · rw [h] at hlink; simp at hlink
                        have hlink' : ((diskFind st.disk newPath).isSome
                            || (baseNameOf newPath).isEmpty) = false := by
                          rw [hl1, hl2]; rfl
                        simp only [NtfsMoveFile, hF, hpe', hd',
                          Bool.false_eq_true, if_false, hlp, hoi, hfb', hsd',
                          hnl, hnpn, hFn, hlink']
                        exact hSucc j hFn hl1 hl2
                | none =>
                  cases hno : openInodeFromPath st (parentPathOf newPath) with
                  | none =>
                    simp only [NtfsMoveFile, hF, hpe', hd', Bool.false_eq_true,
                      if_false, hlp, hoi, hfb', hsd', hnl, hno]
                    exact hI
                  | some np =>
                    cases hFn : F.NtfsInode with
                    | none =>
                      simp only [NtfsMoveFile, hF, hpe', hd',
                        Bool.false_eq_true, if_false, hlp, hoi, hfb', hsd',
                        hnl, hno, hFn]
                      exact hI
                    | some j =>
                      by_cases hlink : (diskFind st.disk newPath).isSome
                        || (baseNameOf newPath).isEmpty
                      · simp only [NtfsMoveFile, hF, hpe', hd',
                          Bool.false_eq_true, if_false, hlp, hoi, hfb', hsd',
                          hnl, hno, hFn, hlink]
                        exact hI
                      · have hl1 : diskFind st.disk newPath = none := by
                          rcases h : diskFind st.disk newPath with _ | e
                          · rfl
                          · rw [h] at hlink; simp at hlink
                        have hl2 : (baseNameOf newPath).isEmpty = false := by
                          rcases h : (baseNameOf newPath).isEmpty
                          · rfl
                          · rw [h] at hlink; simp at hlink
                        have hlink' : ((diskFind st.disk newPath).isSome
                            || (baseNameOf newPath).isEmpty) = false := by
                          rw [hl1, hl2]; rfl
                        simp only [NtfsMoveFile, hF, hpe', hd',
                          Bool.false_eq_true, if_false, hlp, hoi, hfb', hsd',
                          hnl, hno, hFn, hlink']
                        exact hSucc j hFn hl1 hl2
        | some P =>
          cases hpn : P.NtfsInode with
          | none =>
            simp only [NtfsMoveFile, hF, hpe', hd', Bool.false_eq_true,
              if_false, hlp, hpn]
            exact hI
          | some pidir =>
            by_cases hfb : fb (baseNameOf newPath)
            · simp only [NtfsMoveFile, hF, hpe', hd', Bool.false_eq_true,
                if_false, hlp, hpn, hfb, if_true]
              exact hI
            · have hfb' : fb (baseNameOf newPath) = false := by simpa using hfb
              by_cases hsd : parentPathOf newPath == parentPathOf F.Path
              · cases hFn : F.NtfsInode with
                | none =>
                  simp only [NtfsMoveFile, hF, hpe', hd', Bool.false_eq_true,
                    if_false, hlp, hpn, hfb', hsd, if_true, hFn]
                  exact hI
                | some j =>
                  by_cases hlink : (diskFind st.disk newPath).isSome
                    || (baseNameOf newPath).isEmpty
                  · simp only [NtfsMoveFile, hF, hpe', hd', Bool.false_eq_true,
                      if_false, hlp, hpn, hfb', hsd, if_true, hFn, hlink]
                    exact hI
                  · have hl1 : diskFind st.disk newPath = none := by
                      rcases h : diskFind st.disk newPath with _ | e
                      · rfl
                      · rw [h] at hlink; simp at hlink
                    have hl2 : (baseNameOf newPath).isEmpty = false := by
                      rcases h : (baseNameOf newPath).isEmpty
                      · rfl
                      · rw [h] at hlink; simp at hlink
                    have hlink' : ((diskFind st.disk newPath).isSome
                        || (baseNameOf newPath).isEmpty) = false := by
                      rw [hl1, hl2]; rfl
                    simp only [NtfsMoveFile, hF, hpe', hd', Bool.false_eq_true,
                      if_false, hlp, hpn, hfb', hsd, if_true, hFn, hlink']
                    exact hSucc j hFn hl1 hl2
              · have hsd' : (parentPathOf newPath == parentPathOf F.Path)
                    = false := by simpa using hsd
                cases hnl : lookupPath st (parentPathOf newPath) none with
                | some NP =>
                  cases hnpn : NP.NtfsInode with
                  | none =>
                    simp only [NtfsMoveFile, hF, hpe', hd', Bool.false_eq_true,
                      if_false, hlp, hpn, hfb', hsd', hnl, hnpn]
                    exact hI
                  | some np =>
                    cases hFn : F.NtfsInode with
                    | none =>
                      simp only [NtfsMoveFile, hF, hpe', hd',
                        Bool.false_eq_true, if_false, hlp, hpn, hfb', hsd',
                        hnl, hnpn, hFn]
                      exact hI
                    | some j =>
                      by_cases hlink : (diskFind st.disk newPath).isSome
                        || (baseNameOf newPath).isEmpty
                      · simp only [NtfsMoveFile, hF, hpe', hd',
                          Bool.false_eq_true, if_false, hlp, hpn, hfb', hsd',
                          hnl, hnpn, hFn, hlink]
                        exact hI
                      · have hl1 : diskFind st.disk newPath = none := by
                          rcases h : diskFind st.disk newPath with _ | e
                          · rfl
                          · rw [h] at hlink; simp at hlink
                        have hl2 : (baseNameOf newPath).isEmpty = false := by
                          rcases h : (baseNameOf newPath).isEmpty
                          · rfl
                          · rw [h] at hlink; simp at hlink
                        have hlink' : ((diskFind st.disk newPath).isSome
                            || (baseNameOf newPath).isEmpty) = false := by
                          rw [hl1, hl2]; rfl
                        simp only [NtfsMoveFile, hF, hpe', hd',
                          Bool.false_eq_true, if_false, hlp, hpn, hfb', hsd',
                          hnl, hnpn, hFn, hlink']
                        exact hSucc j hFn hl1 hl2
                | none =>
                  cases hno : openInodeFromPath st (parentPathOf newPath) with
                  | none =>
                    simp only [NtfsMoveFile, hF, hpe', hd', Bool.false_eq_true,
                      if_false, hlp, hpn, hfb', hsd', hnl, hno]
                    exact hI
                  | some np =>
                    cases hFn : F.NtfsInode with
                    | none =>
                      simp only [NtfsMoveFile, hF, hpe', hd',
                        Bool.false_eq_true, if_false, hlp, hpn, hfb', hsd',
                        hnl, hno, hFn]
                      exact hI
                    | some j =>
                      by_cases hlink : (diskFind st.disk newPath).isSome
                        || (baseNameOf newPath).isEmpty
                      · simp only [NtfsMoveFile, hF, hpe', hd',
                          Bool.false_eq_true, if_false, hlp, hpn, hfb', hsd',
                          hnl, hno, hFn, hlink]
                        exact hI
                      · have hl1 : diskFind st.disk newPath = none := by
                          rcases h : diskFind st.disk newPath with _ | e
                          · rfl
                          · rw [h] at hlink; simp at hlink
                        have hl2 : (baseNameOf newPath).isEmpty = false := by
                          rcases h : (baseNameOf newPath).isEmpty
                          · rfl
                          · rw [h] at hlink; simp at hlink
                        have hlink' : ((diskFind st.disk newPath).isSome
                            || (baseNameOf newPath).isEmpty) = false := by
                          rw [hl1, hl2]; rfl
                        simp only [NtfsMoveFile, hF, hpe', hd',
                          Bool.false_eq_true, if_false, hlp, hpn, hfb', hsd',
                          hnl, hno, hFn, hlink']
                        exact hSucc j hFn hl1 hl2

theorem inv_touch {st : VolState} (hI : Inv st) (fid : Nat) (d1 d2 : Bool) :
    Inv { st with reg := regSetDirty st.reg fid d1 d2 } :=
  Inv.setDirty hI fid d1 d2

theorem inv_close {st : VolState} (hI : Inv st) (fid : Nat) (ro : Bool) :
    Inv (NtfsCloseFile st fid ro) := by
  cases hF : regFind st.reg fid with
  | none => simp only [NtfsCloseFile, hF]; exact hI
  | some F =>
    cases hN : F.NtfsInode with
    | none => simp only [NtfsCloseFile, hF, hN]; exact hI
    | some j =>
      by_cases hd : IS_DIRTY F
      · cases hlp : lookupParentOf st F with
        | none =>
          simp only [NtfsCloseFile, hF, hN, hd, hlp, if_true]
          exact Inv.remove hI fid
        | some P =>
          cases hpn : P.NtfsInode with
          | none =>
            simp only [NtfsCloseFile, hF, hN, hd, hlp, hpn, if_true]
            exact Inv.remove hI fid
          | some pi =>
            have hPmem : P ∈ st.reg := (lookupPath_eq_some hlp).1
            by_cases hro : ro
            · simp only [NtfsCloseFile, hF, hN, hd, hlp, hpn, hro, if_true]
              refine Inv.remove (Inv.setInode hI P.fid (some pi) ?_) fid
              intro r hr hrf i hi
              have : r = P := regFind_unique hI hr hPmem hrf
              subst this
              exact hI.regHandle r hr i (by rw [hpn]; exact hi)
            · have hro' : ro = false := by simpa using hro
              simp only [NtfsCloseFile, hF, hN, hd, hlp, hpn, hro',
                Bool.false_eq_true, if_true, if_false]
              exact Inv.remove (Inv.remove hI P.fid) fid
      · have hd' : IS_DIRTY F = false := by simpa using hd
        simp only [NtfsCloseFile, hF, hN, hd', Bool.false_eq_true, if_false]
        exact Inv.remove hI fid

theorem inv_step (fb : FsPath → Bool) {st : VolState} (hI : Inv st) {op : Op}
    (hL : legalOp st op = true) : Inv (step fb st op) := by
  cases op with
  | opOpen fid p =>
    simp only [legalOp, Bool.and_eq_true] at hL
    refine inv_open hI ?_ ?_
    · simpa using hL.1
    · simpa [Option.isNone_iff_eq_none] using hL.2
  | opCreate fid p isDir =>
    simp only [legalOp, Bool.and_eq_true] at hL
    refine inv_create fb hI ?_ ?_ ?_
    · simpa using hL.1.1
    · simpa using hL.1.2
    · simpa [Option.isNone_iff_eq_none] using hL.2
  | opClose fid ro => exact inv_close hI fid ro
  | opDelete fid delOk rP rGP reErr => exact inv_delete hI fid delOk rP rGP reErr
  | opMove fid newPath =>
    simp only [legalOp, Bool.and_eq_true] at hL
    exact inv_move fb hI hL.2
  | opTouch fid d1 d2 => exact inv_touch hI fid d1 d2

theorem inv_run (fb : FsPath → Bool) :
    ∀ (ops : List Op) (st : VolState), Inv st →
    traceLegal fb st ops = true → Inv (runOps fb st ops)
  | [], _, hI, _ => hI
  | op :: rest, st, hI, hL => by
    rw [traceLegal, Bool.and_eq_true] at hL
    exact inv_run fb rest (step fb st op) (inv_step fb hI hL.1) hL.2

theorem InitOk.inv {st : VolState} (h : InitOk st) : Inv st := by
  refine ⟨h.2, ?_, ?_, ?_, ?_, ?_, ?_⟩
  · rw [h.1]; exact List.nodup_nil
  · rw [h.1]; exact List.nodup_nil
  · intro r hr; rw [h.1] at hr; cases hr
  · intro r hr; rw [h.1] at hr; cases hr
  · intro r hr; rw [h.1] at hr; cases hr
  · intro r hr; rw [h.1] at hr; cases hr

/-- C1 (amended): for every sequence of Open/Create/Close/Delete/Move (and
dirtying) operations on one mounted volume, started from a well-formed
mount, in which no operation addresses the empty path (the root being
addressed by the single-separator path) and no rename targets a record or a
destination with an empty final name component, at no point do two Handle
Records in the lookup list simultaneously hold non-null engine inode
handles for the same on-disk object; in particular an Open of a path that
already has a registered record returns the existing record instead of
opening a second inode. -/
theorem C1_single_open_invariant (fb : FsPath → Bool) (st : VolState)
    (ops : List Op) (h0 : InitOk st) (hL : traceLegal fb st ops = true) :
    HandleUnique (runOps fb st ops).reg :=
  (inv_run fb ops st h0.inv hL).handleUnique

/-- Witness for C1: a legal trace (open a file, open the root, close the
file) from a well-formed one-file volume satisfies the invariant. -/
theorem C1_single_open_invariant_witness :
    HandleUnique (runOps (fun _ => false)
      ⟨[], [⟨[PATH_CHAR, 'a'], 7, true⟩], 8⟩
      [.opOpen 1 [PATH_CHAR, 'a'], .opOpen 2 [PATH_CHAR],
       .opClose 1 true]).reg :=
  C1_single_open_invariant (fun _ => false)
    ⟨[], [⟨[PATH_CHAR, 'a'], 7, true⟩], 8⟩
    [.opOpen 1 [PATH_CHAR, 'a'], .opOpen 2 [PATH_CHAR], .opClose 1 true]
    (by decide) (by decide)

/-- Counterexample to C1 as stated: opening the empty path (which the
lookup and the path model both treat as a name of the root, uefi_bridge.c
lines 336 and 449) and then the single-separator path yields two registered
records both holding an open engine inode for `FILE_root`: the first open
leaves a record with `IsRoot = FALSE` (line 657 sets `IsRoot` only for the
single-separator spelling), so the second open's lookup (which compares the
searched path against `IsRoot` only when the *searched* path is empty)
misses it and opens the root inode a second time. -/
theorem C1_counterexample :
    ¬ HandleUnique (runOps (fun _ => false) ⟨[], [], 6⟩
      [.opOpen 1 [], .opOpen 2 [PATH_CHAR]]).reg := by decide

/-- C2: opening the same canonical path twice without an intervening close
yields the same Handle Record both times: the second Open finds the
existing record by path lookup, discards the caller's newly-allocated
record, and returns the existing record with success (and the state is
unchanged by the second Open). -/
theorem C2_alias_idempotent {st st1 : VolState} {p : FsPath}
    {fid1 fid2 : Nat} {F : EfiNtfsFile}
    (h1 : NtfsOpenFile st fid1 p = (st1, some F, .SUCCESS)) :
    NtfsOpenFile st1 fid2 p = (st1, some F, .SUCCESS) := by
  unfold NtfsOpenFile at h1
  cases hlk : lookupPath st p none with
  | some F0 =>
    rw [hlk] at h1
    simp only [Prod.mk.injEq] at h1
    obtain ⟨hst, hF, -⟩ := h1
    subst hst
    have hF' : F0 = F := by simpa using hF
    subst hF'
    simp only [NtfsOpenFile, hlk]
  | none =>
    rw [hlk] at h1
    cases hoi : openInodeFromPath st p with
    | none =>
      rw [hoi] at h1
      simp at h1
    | some i =>
      rw [hoi] at h1
      simp only [Prod.mk.injEq] at h1
      obtain ⟨hst, hF, -⟩ := h1
      have hlk2 : lookupPath st1 p none = some F := by
        rw [← hst]
        show List.find? _ (st.reg ++ [_]) = _
        rw [List.find?_append]
        rw [lookupPath] at hlk
        rw [hlk]
        simp only [Option.none_or]
        rw [List.find?]
        have : (!(none == some fid1) &&
            ((p.isEmpty && (p == [PATH_CHAR])) || p == p)) = true := by
          simp
        rw [this]
        simpa using hF
      simp only [NtfsOpenFile, hlk2]

/-- Witness for C2: on a one-file volume, a first open of `\a` succeeds,
and a second open of `\a` returns the very record the first open
registered, with success and no state change. -/
theorem C2_alias_idempotent_witness :
    NtfsOpenFile
      ⟨[⟨1, [PATH_CHAR, 'a'], false, false, some 7, false, false⟩],
       [⟨[PATH_CHAR, 'a'], 7, false⟩], 8⟩ 2 [PATH_CHAR, 'a'] =
    (⟨[⟨1, [PATH_CHAR, 'a'], false, false, some 7, false, false⟩],
      [⟨[PATH_CHAR, 'a'], 7, false⟩], 8⟩,
     some ⟨1, [PATH_CHAR, 'a'], false, false, some 7, false, false⟩,
     .SUCCESS) :=
  @C2_alias_idempotent
    ⟨[], [⟨[PATH_CHAR, 'a'], 7, false⟩], 8⟩
    ⟨[⟨1, [PATH_CHAR, 'a'], false, false, some 7, false, false⟩],
     [⟨[PATH_CHAR, 'a'], 7, false⟩], 8⟩
    [PATH_CHAR, 'a'] 1 2
    ⟨1, [PATH_CHAR, 'a'], false, false, some 7, false, false⟩
    (by decide)

/-- C3 (amended): Close removes the record from the Registry whenever the
record holds an engine inode; a Close of a record whose engine handle is
null is a no-op that leaves the record registered (uefi_bridge.c line 678
returns before the `NtfsLookupRem` of line 704). -/
theorem C3_close_deregisters {st : VolState} {fid : Nat} {F : EfiNtfsFile}
    (h : regFind st.reg fid = some F) (ro : Bool) :
    (∀ i, F.NtfsInode = some i →
      regFind (NtfsCloseFile st fid ro).reg fid = none) ∧
    (F.NtfsInode = none → NtfsCloseFile st fid ro = st) := by
  constructor
  · intro i hi
    by_cases hd : IS_DIRTY F
    · cases hlp : lookupParentOf st F with
      | none =>
        simp only [NtfsCloseFile, h, hi, hd, hlp, if_true]
        exact regFind_regRemove _ _
      | some P =>
        cases hpn : P.NtfsInode with
        | none =>
          simp only [NtfsCloseFile, h, hi, hd, hlp, hpn, if_true]
          exact regFind_regRemove _ _
        | some pi =>
          by_cases hro : ro
          · simp only [NtfsCloseFile, h, hi, hd, hlp, hpn, hro, if_true]
            exact regFind_regRemove _ _
          · have hro' : ro = false := by simpa using hro
            simp only [NtfsCloseFile, h, hi, hd, hlp, hpn, hro',
              Bool.false_eq_true, if_true, if_false]
            exact regFind_regRemove _ _
    · have hd' : IS_DIRTY F = false := by simpa using hd
      simp only [NtfsCloseFile, h, hi, hd', Bool.false_eq_true, if_false]
      exact regFind_regRemove _ _
  · intro hn
    simp only [NtfsCloseFile, h, hn]

/-- Witness for C3 (amended): closing a registered record that holds an
engine inode removes it from the lookup list. -/
theorem C3_close_deregisters_witness :
    regFind (NtfsCloseFile
      ⟨[⟨1, [PATH_CHAR, 'a'], false, false, some 7, false, false⟩],
       [⟨[PATH_CHAR, 'a'], 7, false⟩], 8⟩ 1 true).reg 1 = none :=
  (C3_close_deregisters
    (F := ⟨1, [PATH_CHAR, 'a'], false, false, some 7, false, false⟩)
    (by decide) true).1 7 (by decide)

/-- Counterexample to C3 as stated: Close of a registered record whose
engine handle is null returns immediately (uefi_bridge.c line 678-679)
without removing the record — after the call the record is still found in
the lookup list. Such a state is reachable: `NtfsMoveFile` stores an
unchecked `ntfs_inode_open` result back into a registered parent record
(lines 1236, 1271-1274). -/
theorem C3_counterexample :
    regFind (NtfsCloseFile
      ⟨[⟨1, [PATH_CHAR, 'a'], false, false, none, false, false⟩],
       [⟨[PATH_CHAR, 'a'], 7, false⟩], 8⟩ 1 true).reg 1 =
    some ⟨1, [PATH_CHAR, 'a'], false, false, none, false, false⟩ := by decide

theorem regFind_regRemove_mono {reg : List EfiNtfsFile} {f g : Nat}
    (h : regFind reg f = none) : regFind (regRemove reg g) f = none := by
  rw [regFind, List.find?_eq_none]
  intro r hr
  rw [regFind, List.find?_eq_none] at h
  exact h r (mem_regRemove.mp hr).1

theorem regFind_regSetInode_none {reg : List EfiNtfsFile} {f g : Nat}
    {v : Option Nat} (h : regFind reg f = none) :
    regFind (regSetInode reg g v) f = none := by
  rw [regFind, List.find?_eq_none]
  intro r hr
  rw [regFind, List.find?_eq_none] at h
  obtain ⟨r₀, hr₀, hfid, _, _, _⟩ := mem_regSetInode hr
  have := h r₀ hr₀
  simp only [beq_iff_eq] at this ⊢
  omega

/-- C4 (amended): a failure to reacquire the parent's engine handle after a
temporary release is non-fatal for Close (which returns no status; the
closed record and the reacquire-failed parent both leave the Registry) and
for Flush (whose status depends only on the sync outcome, the
reacquire-failed parent leaving the Registry); for Delete, the parent's
record likewise leaves the Registry, but the operation returns the
translated reacquire errno instead of its own (successful) outcome
(uefi_bridge.c lines 1054-1060). -/
theorem C4_reacquire_failure_policy (st : VolState) (fid : Nat) :
    (∀ F P i pi, regFind st.reg fid = some F → F.NtfsInode = some i →
      IS_DIRTY F = true → lookupParentOf st F = some P →
      P.NtfsInode = some pi →
      regFind (NtfsCloseFile st fid false).reg P.fid = none ∧
      regFind (NtfsCloseFile st fid false).reg fid = none) ∧
    (∀ syncOk e, (NtfsFlushFile st fid syncOk false e).status =
      (NtfsFlushFile st fid syncOk true e).status) ∧
    (∀ F P pi syncOk e, regFind st.reg fid = some F →
      (!F.dirtyMain && F.dirtyAttrList) = false →
      lookupParentOf st F = some P → P.NtfsInode = some pi →
      regFind (NtfsFlushFile st fid syncOk false e).st.reg P.fid = none) ∧
    (∀ F P pi reErr rGP, regFind st.reg fid = some F →
      lookupParentOf st F = some P → P.NtfsInode = some pi →
      (pi == extendInum) = false →
      (F.NtfsInode.isSome && !(baseNameOf F.Path).isEmpty) = true →
      regFind (NtfsDeleteFile st fid true false rGP reErr).1.reg P.fid = none ∧
      (NtfsDeleteFile st fid true false rGP reErr).2 =
        ErrnoToEfiStatus reErr) := by
  refine ⟨?_, ?_, ?_, ?_⟩
  · intro F P i pi hF hi hd hlp hpn
    simp only [NtfsCloseFile, hF, hi, hd, hlp, hpn, Bool.false_eq_true,
      if_true, if_false]
    constructor
    · exact regFind_regRemove_mono (regFind_regRemove _ _)
    · exact regFind_regRemove _ _
  · intro syncOk e
    cases hF : regFind st.reg fid with
    | none => simp only [NtfsFlushFile, hF]
    | some F =>
      by_cases hd : !F.dirtyMain && F.dirtyAttrList
      · simp only [NtfsFlushFile, hF, hd, if_true]
      · have hd' : (!F.dirtyMain && F.dirtyAttrList) = false := by
          simpa using hd
        cases hlp : lookupParentOf st F with
        | none =>
          simp only [NtfsFlushFile, hF, hd', Bool.false_eq_true, if_false, hlp]
        | some P =>
          cases hpn : P.NtfsInode with
          | none =>
            simp only [NtfsFlushFile, hF, hd', Bool.false_eq_true, if_false,
              hlp, hpn]
          | some pi =>
            simp only [NtfsFlushFile, hF, hd', Bool.false_eq_true, if_false,
              hlp, hpn, Bool.true_eq_false, if_true]
  · intro F P pi syncOk e hF hd hlp hpn
    simp only [NtfsFlushFile, hF, hd, Bool.false_eq_true, if_false, hlp, hpn]
    exact regFind_regRemove _ _
  · intro F P pi reErr rGP hF hlp hpn hx hok
    have hs : (true && F.NtfsInode.isSome
        && !(baseNameOf F.Path).isEmpty) = true := by
      simpa using hok
    cases hgp : lookupParentOf st P with
    | none =>
      simp only [NtfsDeleteFile, hF, hlp, hpn, hgp, hx, hs,
        Bool.false_eq_true, if_true, if_false]
      exact ⟨regFind_regRemove _ _, by trivial⟩
    | some GP =>
      by_cases hgr : GP.IsRoot
      · simp only [NtfsDeleteFile, hF, hlp, hpn, hgp, hgr, hx, hs,
          Bool.false_eq_true, if_true, if_false]
        exact ⟨regFind_regRemove _ _, by trivial⟩
      · have hgr' : GP.IsRoot = false := by simpa using hgr
        cases hgn : GP.NtfsInode with
        | none =>
          simp only [NtfsDeleteFile, hF, hlp, hpn, hgp, hgr', hgn, hx, hs,
            Bool.false_eq_true, if_true, if_false]
          exact ⟨regFind_regRemove _ _, by trivial⟩
        | some gi =>
          simp only [NtfsDeleteFile, hF, hlp, hpn, hgp, hgr', hgn, hx, hs,
            Bool.false_eq_true, if_true, if_false]
          exact ⟨regFind_regRemove _ _, by trivial⟩

/-- Witness for C4 (amended), exercising the Delete part at a concrete
two-record volume: delete of `\a\b` with a failing parent reacquire
removes the parent record and returns the translated errno. -/
theorem C4_reacquire_failure_policy_witness :
    regFind (NtfsDeleteFile
      ⟨[⟨0, [PATH_CHAR, 'a'], false, true, some 7, false, false⟩,
        ⟨1, [PATH_CHAR, 'a', PATH_CHAR, 'b'], false, false, some 8,
         false, false⟩],
       [⟨[PATH_CHAR, 'a'], 7, true⟩,
        ⟨[PATH_CHAR, 'a', PATH_CHAR, 'b'], 8, false⟩], 9⟩
      1 true false true .ENOMEM).1.reg 0 = none ∧
    (NtfsDeleteFile
      ⟨[⟨0, [PATH_CHAR, 'a'], false, true, some 7, false, false⟩,
        ⟨1, [PATH_CHAR, 'a', PATH_CHAR, 'b'], false, false, some 8,
         false, false⟩],
       [⟨[PATH_CHAR, 'a'], 7, true⟩,
        ⟨[PATH_CHAR, 'a', PATH_CHAR, 'b'], 8, false⟩], 9⟩
      1 true false true .ENOMEM).2 = ErrnoToEfiStatus .ENOMEM :=
  (C4_reacquire_failure_policy
    ⟨[⟨0, [PATH_CHAR, 'a'], false, true, some 7, false, false⟩,
      ⟨1, [PATH_CHAR, 'a', PATH_CHAR, 'b'], false, false, some 8,
       false, false⟩],
     [⟨[PATH_CHAR, 'a'], 7, true⟩,
      ⟨[PATH_CHAR, 'a', PATH_CHAR, 'b'], 8, false⟩], 9⟩ 1).2.2.2
    ⟨1, [PATH_CHAR, 'a', PATH_CHAR, 'b'], false, false, some 8, false, false⟩
    ⟨0, [PATH_CHAR, 'a'], false, true, some 7, false, false⟩
    7 .ENOMEM true (by decide) (by decide) (by decide) (by decide) (by decide)

/-- Counterexample to C4 as stated: for Delete, the triggering operation's
own result is NOT unaffected by a parent-reacquire failure — the very same
successful delete returns `EFI_SUCCESS` when the reacquire succeeds and
`EFI_OUT_OF_RESOURCES` (the translated reacquire errno) when it fails. -/
theorem C4_counterexample :
    (NtfsDeleteFile
      ⟨[⟨0, [PATH_CHAR, 'a'], false, true, some 7, false, false⟩,
        ⟨1, [PATH_CHAR, 'a', PATH_CHAR, 'b'], false, false, some 8,
         false, false⟩],
       [⟨[PATH_CHAR, 'a'], 7, true⟩,
        ⟨[PATH_CHAR, 'a', PATH_CHAR, 'b'], 8, false⟩], 9⟩
      1 true true true .ENOMEM).2 = .SUCCESS ∧
    (NtfsDeleteFile
      ⟨[⟨0, [PATH_CHAR, 'a'], false, true, some 7, false, false⟩,
        ⟨1, [PATH_CHAR, 'a', PATH_CHAR, 'b'], false, false, some 8,
         false, false⟩],
       [⟨[PATH_CHAR, 'a'], 7, true⟩,
        ⟨[PATH_CHAR, 'a', PATH_CHAR, 'b'], 8, false⟩], 9⟩
      1 true false true .ENOMEM).2 = .OUT_OF_RESOURCES := by decide

/-- C5: a Delete whose engine-level `ntfs_delete` call fails (the call
being reached: the parent directory resolved and is not `$Extend`) still
removes the record from the Registry (`NtfsLookupRem` runs before the
result check, uefi_bridge.c line 1046) and returns
`EFI_WARN_DELETE_FAILURE`, not a hard error (lines 1047-1050). -/
theorem C5_delete_failure_warns {st : VolState} {fid : Nat}
    {F : EfiNtfsFile} (hF : regFind st.reg fid = some F)
    (rP rGP : Bool) (reErr : Errno)
    (hreach : match lookupParentOf st F with
      | some P => ∃ pi, P.NtfsInode = some pi ∧ (pi == extendInum) = false
      | none => ∃ di, openInodeFromPath st (parentPathOf F.Path) = some di ∧
          (di == extendInum) = false) :
    (NtfsDeleteFile st fid false rP rGP reErr).2 = .WARN_DELETE_FAILURE ∧
    regFind (NtfsDeleteFile st fid false rP rGP reErr).1.reg fid = none := by
  cases hlp : lookupParentOf st F with
  | none =>
    rw [hlp] at hreach
    obtain ⟨di, hdi, hx⟩ := hreach
    simp only [NtfsDeleteFile, hF, hlp, hdi, hx, Bool.false_and,
      Bool.false_eq_true, if_true, if_false]
    exact ⟨by trivial, regFind_regRemove _ _⟩
  | some P =>
    rw [hlp] at hreach
    obtain ⟨pi, hpn, hx⟩ := hreach
    cases hgp : lookupParentOf st P with
    | none =>
      simp only [NtfsDeleteFile, hF, hlp, hpn, hgp, hx, Bool.false_and,
        Bool.false_eq_true, if_true, if_false]
      exact ⟨by trivial, regFind_regRemove _ _⟩
    | some GP =>
      by_cases hgr : GP.IsRoot
      · simp only [NtfsDeleteFile, hF, hlp, hpn, hgp, hgr, hx, Bool.false_and,
          Bool.false_eq_true, if_true, if_false]
        exact ⟨by trivial, regFind_regRemove _ _⟩
      · have hgr' : GP.IsRoot = false := by simpa using hgr
        cases hgn : GP.NtfsInode with
        | none =>
          simp only [NtfsDeleteFile, hF, hlp, hpn, hgp, hgr', hgn, hx,
            Bool.false_and, Bool.false_eq_true, if_true, if_false]
          exact ⟨by trivial, regFind_regRemove _ _⟩
        | some gi =>
          simp only [NtfsDeleteFile, hF, hlp, hpn, hgp, hgr', hgn, hx,
            Bool.false_and, Bool.false_eq_true, if_true, if_false]
          exact ⟨by trivial, regFind_regRemove _ _⟩

/-- Witness for C5: on a two-record volume, a failing engine delete of
`\a\b` returns the delete-failure warning and deregisters the record. -/
theorem C5_delete_failure_warns_witness :
    (NtfsDeleteFile
      ⟨[⟨0, [PATH_CHAR, 'a'], false, true, some 7, false, false⟩,
        ⟨1, [PATH_CHAR, 'a', PATH_CHAR, 'b'], false, false, some 8,
         false, false⟩],
       [⟨[PATH_CHAR, 'a'], 7, true⟩,
        ⟨[PATH_CHAR, 'a', PATH_CHAR, 'b'], 8, false⟩], 9⟩
      1 false true true Errno.EIO).2 = .WARN_DELETE_FAILURE ∧
    regFind (NtfsDeleteFile
      ⟨[⟨0, [PATH_CHAR, 'a'], false, true, some 7, false, false⟩,
        ⟨1, [PATH_CHAR, 'a', PATH_CHAR, 'b'], false, false, some 8,
         false, false⟩],
       [⟨[PATH_CHAR, 'a'], 7, true⟩,
        ⟨[PATH_CHAR, 'a', PATH_CHAR, 'b'], 8, false⟩], 9⟩
      1 false true true Errno.EIO).1.reg 1 = none :=
  C5_delete_failure_warns
    (F := ⟨1, [PATH_CHAR, 'a', PATH_CHAR, 'b'], false, false, some 8,
      false, false⟩)
    (by decide) true true Errno.EIO (by exact ⟨7, rfl, by decide⟩)

/-- C7: a Move/Rename to a different path of a record whose object is
marked modified (`IS_DIRTY`) returns `EFI_ACCESS_DENIED` and changes no
state: no link is created, no entry deleted, path and engine handle
unchanged (uefi_bridge.c lines 1136-1138, before any mutation). -/
theorem C7_move_dirty_rejected (fb : FsPath → Bool) {st : VolState}
    {fid : Nat} {F : EfiNtfsFile} {newPath : FsPath}
    (hF : regFind st.reg fid = some F)
    (hne : (F.Path == newPath) = false)
    (hd : IS_DIRTY F = true) :
    NtfsMoveFile fb st fid newPath = (st, .ACCESS_DENIED) := by
  simp only [NtfsMoveFile, hF, hne, hd, Bool.false_eq_true, if_true, if_false]

/-- Witness for C7: renaming a dirty `\a` to `\b` is rejected with no
state change. -/
theorem C7_move_dirty_rejected_witness :
    NtfsMoveFile (fun _ => false)
      ⟨[⟨1, [PATH_CHAR, 'a'], false, false, some 7, true, false⟩],
       [⟨[PATH_CHAR, 'a'], 7, false⟩], 8⟩ 1 [PATH_CHAR, 'b'] =
    (⟨[⟨1, [PATH_CHAR, 'a'], false, false, some 7, true, false⟩],
      [⟨[PATH_CHAR, 'a'], 7, false⟩], 8⟩, .ACCESS_DENIED) :=
  C7_move_dirty_rejected (fun _ => false)
    (F := ⟨1, [PATH_CHAR, 'a'], false, false, some 7, true, false⟩)
    (by decide) (by decide) (by decide)

/-- C10: Flush returns success without invoking the engine sync exactly
when the inode's main dirty flag is clear AND its attribute-list dirty
flag is set (the literal condition of uefi_bridge.c line 1396); for an
inode with both dirty flags clear the engine sync is still invoked; and
the parent-release/reacquire sequence is performed whenever a registered
parent holding an engine inode exists (lines 1403-1418). -/
theorem C10_flush_conditions {st : VolState} {fid : Nat} {F : EfiNtfsFile}
    (hF : regFind st.reg fid = some F) (syncOk reopenOk : Bool) (e : Errno) :
    (((NtfsFlushFile st fid syncOk reopenOk e).syncCalled = false ∧
      (NtfsFlushFile st fid syncOk reopenOk e).status = .SUCCESS) ↔
      (F.dirtyMain = false ∧ F.dirtyAttrList = true)) ∧
    ((F.dirtyMain = false ∧ F.dirtyAttrList = false) →
      (NtfsFlushFile st fid syncOk reopenOk e).syncCalled = true) ∧
    (∀ P pi, ¬(F.dirtyMain = false ∧ F.dirtyAttrList = true) →
      lookupParentOf st F = some P → P.NtfsInode = some pi →
      (NtfsFlushFile st fid syncOk reopenOk e).parentReleased = true) := by
  by_cases hd : !F.dirtyMain && F.dirtyAttrList
  · have hd' : F.dirtyMain = false ∧ F.dirtyAttrList = true := by
      simpa [Bool.and_eq_true] using hd
    simp only [NtfsFlushFile, hF, hd, if_true]
    refine ⟨?_, ?_, ?_⟩
    · simp [hd']
    · intro h; rw [h.2] at hd'; cases hd'.2
    · intro P pi hcon; exact absurd hd' hcon
  · have hd' : (!F.dirtyMain && F.dirtyAttrList) = false := by simpa using hd
    have hcon : ¬(F.dirtyMain = false ∧ F.dirtyAttrList = true) := by
      intro h
      rw [h.1, h.2] at hd'
      cases hd'
    cases hlp : lookupParentOf st F with
    | none =>
      simp only [NtfsFlushFile, hF, hd', Bool.false_eq_true, if_false, hlp]
      refine ⟨?_, ?_, ?_⟩
      · constructor
        · intro h; cases h.1
        · intro h; exact absurd h hcon
      · intro _; trivial
      · intro P pi _ hlp'; cases hlp'
    | some P =>
      cases hpn : P.NtfsInode with
      | none =>
        simp only [NtfsFlushFile, hF, hd', Bool.false_eq_true, if_false,
          hlp, hpn]
        refine ⟨?_, ?_, ?_⟩
        · constructor
          · intro h; cases h.1
          · intro h; exact absurd h hcon
        · intro _; trivial
        · intro P' pi' _ hlp' hpn'
          have hPP : P = P' := by simpa using hlp'
          rw [← hPP, hpn] at hpn'
          cases hpn'
      | some pi =>
        by_cases hro : reopenOk
        · simp only [NtfsFlushFile, hF, hd', Bool.false_eq_true, if_false,
            hlp, hpn, hro, if_true]
          refine ⟨?_, ?_, ?_⟩
          · constructor
            · intro h; cases h.1
            · intro h; exact absurd h hcon
          · intro _; trivial
          · intro P' pi' _ _ _; trivial
        · have hro' : reopenOk = false := by simpa using hro
          simp only [NtfsFlushFile, hF, hd', Bool.false_eq_true, if_false,
            hlp, hpn, hro', if_true]
          refine ⟨?_, ?_, ?_⟩
          · constructor
            · intro h; cases h.1
            · intro h; exact absurd h hcon
          · intro _; trivial
          · intro P' pi' _ _ _; trivial

/-- Witness for C10: a clean file (both dirty flags clear) with a
registered parent still gets a sync, and the early-exit/`parentReleased`
characterizations hold. -/
theorem C10_flush_conditions_witness :
    (NtfsFlushFile
      ⟨[⟨0, [PATH_CHAR, 'a'], false, true, some 7, false, false⟩,
        ⟨1, [PATH_CHAR, 'a', PATH_CHAR, 'b'], false, false, some 8,
         false, false⟩],
       [⟨[PATH_CHAR, 'a'], 7, true⟩,
        ⟨[PATH_CHAR, 'a', PATH_CHAR, 'b'], 8, false⟩], 9⟩
      1 true true Errno.EIO).syncCalled = true :=
  (C10_flush_conditions
    (F := ⟨1, [PATH_CHAR, 'a', PATH_CHAR, 'b'], false, false, some 8,
      false, false⟩)
    (by decide) true true Errno.EIO).2.1 ⟨rfl, rfl⟩

/-- Under an engine whose partial reads are all positive, the read loop
either fails with the forced `EIO` or succeeds having accumulated exactly
the requested total. -/
theorem ntfsReadLoop_success_len (pread : Nat → Int) (e : Errno) :
    ∀ (fuel k : Nat) (offset size acc : Int), 0 ≤ size →
    (∀ m, 0 < pread m) →
    (ntfsReadLoop pread e fuel k offset size acc).status = .SUCCESS →
    (ntfsReadLoop pread e fuel k offset size acc).Len = acc + size := by
  intro fuel
  induction fuel with
  | zero =>
    intro k offset size acc h0 hpos
    simp only [ntfsReadLoop]
    by_cases h : size > 0
    · rw [if_pos h]
      intro hs
      cases hs
    · rw [if_neg h]
      intro _
      show acc = acc + size
      omega
  | succ fuel ih =>
    intro k offset size acc h0 hpos
    simp only [ntfsReadLoop]
    by_cases h : size > 0
    · rw [if_pos h]
      by_cases hr : pread k ≤ 0 || pread k > size
      · rw [if_pos hr]
        have hkpos := hpos k
        have hge : pread k ≥ 0 := by omega
        rw [if_pos hge]
        intro hs
        cases hs
      · rw [if_neg hr]
        have hr' : ¬(pread k ≤ 0) ∧ ¬(pread k > size) := by
          constructor
          · intro hc; exact hr (by simp [hc])
          · intro hc; exact hr (by simp [hc])
        intro hs
        have := ih (k + 1) (offset + pread k) (size - pread k)
          (acc + pread k) (by omega) hpos hs
        rw [this]
        omega
    · rw [if_neg h]
      intro _
      show acc = acc + size
      omega

/-- C6: Read returns `EFI_DEVICE_ERROR` with 0 bytes when the offset
strictly exceeds the data size; otherwise the request is clamped to
`dataSize - offset` (a positive-partial-read engine delivers exactly
`min request (dataSize - offset)` bytes on success, and the claim's own
example — size 100, offset 90, request 50 — yields exactly 10 bytes,
final offset 100, and success); the loop treats a zero partial read as an
`EIO` I/O error and a negative one as the engine's errno. -/
theorem C6_read_clamps (ds off : Int) (req : Nat) (pread : Nat → Int)
    (e : Errno) :
    (off > ds → NtfsReadFile ds off req pread e = ⟨0, off, .DEVICE_ERROR⟩) ∧
    (off ≤ ds → (∀ m, 0 < pread m) →
      (NtfsReadFile ds off req pread e).status = .SUCCESS →
      (NtfsReadFile ds off req pread e).Len = min (req : Int) (ds - off)) ∧
    (NtfsReadFile 100 90 50 (fun _ => 10) Errno.EIO = ⟨10, 100, .SUCCESS⟩) ∧
    (0 < req → off + req ≤ ds → pread 0 = 0 →
      (NtfsReadFile ds off req pread e).status = ErrnoToEfiStatus Errno.EIO) ∧
    (0 < req → off + req ≤ ds → pread 0 < 0 →
      (NtfsReadFile ds off req pread e).status = ErrnoToEfiStatus e) := by
  refine ⟨?_, ?_, ?_, ?_, ?_⟩
  · intro h
    have h2 : off + (req : Int) > ds := by
      have : (0 : Int) ≤ req := Int.natCast_nonneg req
      omega
    simp only [NtfsReadFile, h2, h, if_true]
  · intro hle hpos hs
    unfold NtfsReadFile at hs ⊢
    by_cases h2 : off + (req : Int) > ds
    · rw [if_pos h2] at hs ⊢
      have h3 : ¬ off > ds := by omega
      rw [if_neg h3] at hs ⊢
      have := ntfsReadLoop_success_len pread e ((ds - off).toNat + 1) 0 off
        (ds - off) 0 (by omega) hpos hs
      rw [this]
      have : min (req : Int) (ds - off) = ds - off := by omega
      omega
    · rw [if_neg h2] at hs ⊢
      have := ntfsReadLoop_success_len pread e (req + 1) 0 off
        (req : Int) 0 (by omega) hpos hs
      rw [this]
      have h4 : (req : Int) ≤ ds - off := by omega
      omega
  · decide
  · intro hreq hfits hz
    have h2 : ¬ (off + (req : Int) > ds) := by omega
    simp only [NtfsReadFile, h2, if_false]
    show (ntfsReadLoop pread e (req + 1) 0 off (req : Int) 0).status = _
    simp only [ntfsReadLoop]
    have hpos : ((req : Int) > 0) := by
      have : (1 : Int) ≤ req := by exact_mod_cast hreq
      omega
    rw [if_pos hpos]
    have hcond : pread 0 ≤ 0 || pread 0 > (req : Int) := by simp [hz]
    rw [if_pos hcond]
    have hge : pread 0 ≥ 0 := by omega
    rw [if_pos hge]
  · intro hreq hfits hz
    have h2 : ¬ (off + (req : Int) > ds) := by omega
    simp only [NtfsReadFile, h2, if_false]
    show (ntfsReadLoop pread e (req + 1) 0 off (req : Int) 0).status = _
    simp only [ntfsReadLoop]
    have hpos : ((req : Int) > 0) := by
      have : (1 : Int) ≤ req := by exact_mod_cast hreq
      omega
    rw [if_pos hpos]
    have hcond : pread 0 ≤ 0 || pread 0 > (req : Int) := by
      have : pread 0 ≤ 0 := by omega
      simp [this]
    rw [if_pos hcond]
    have hge : ¬ (pread 0 ≥ 0) := by omega
    rw [if_neg hge]

/-- Witness for C6, exercising the device-error bullet: offset 150 on a
size-100 object returns `EFI_DEVICE_ERROR` and 0 bytes. -/
theorem C6_read_clamps_witness :
    NtfsReadFile 100 150 10 (fun _ => 1) Errno.EIO = ⟨0, 150, .DEVICE_ERROR⟩ :=
  (C6_read_clamps 100 150 10 (fun _ => 1) Errno.EIO).1 (by decide)

theorem ntfsSetInfoTail_creation (conv : Nat → Int) (Info : EfiFileInfo)
    (ni : NtfsInodeData) (h : Info.CreateTime = 0) :
    (ntfsSetInfoTail conv Info ni).2.creation_time = ni.creation_time := by
  unfold ntfsSetInfoTail
  have hc : (Info.CreateTime != 0) = false := by simp [h]
  rw [hc]
  simp only [Bool.false_eq_true, if_false]
  split <;> split <;> rfl

theorem ntfsSetInfoTail_access (conv : Nat → Int) (Info : EfiFileInfo)
    (ni : NtfsInodeData) (h : Info.LastAccessTime = 0) :
    (ntfsSetInfoTail conv Info ni).2.last_access_time =
      ni.last_access_time := by
  unfold ntfsSetInfoTail
  have hc : (Info.LastAccessTime != 0) = false := by simp [h]
  rw [hc]
  simp only [Bool.false_eq_true, if_false]
  split <;> split <;> rfl

theorem ntfsSetInfoTail_mod (conv : Nat → Int) (Info : EfiFileInfo)
    (ni : NtfsInodeData) (h : Info.ModificationTime = 0) :
    (ntfsSetInfoTail conv Info ni).2.last_data_change_time =
      ni.last_data_change_time := by
  unfold ntfsSetInfoTail
  have hc : (Info.ModificationTime != 0) = false := by simp [h]
  rw [hc]
  simp only [Bool.false_eq_true, if_false]
  split <;> split <;> rfl

/-- C8: each timestamp field of `EFI_FILE_INFO` that equals the all-zero
sentinel leaves the corresponding inode timestamp unchanged (uefi_bridge.c
lines 1358-1367, per the UEFI convention quoted there); and on a handle
opened read-only, a non-zero value in any of those fields makes SetInfo
return `EFI_ACCESS_DENIED` with the inode unmodified (lines 1309-1315). -/
theorem C8_setinfo_time_sentinels (conv : Nat → Int) (mvStatus : EfiStatus)
    (truncOk : Bool) (truncErr : Errno) (ni : NtfsInodeData)
    (Info : EfiFileInfo) (ro : Bool) :
    (Info.CreateTime = 0 →
      (NtfsSetFileInfo conv mvStatus truncOk truncErr ni Info
        ro).2.creation_time = ni.creation_time) ∧
    (Info.LastAccessTime = 0 →
      (NtfsSetFileInfo conv mvStatus truncOk truncErr ni Info
        ro).2.last_access_time = ni.last_access_time) ∧
    (Info.ModificationTime = 0 →
      (NtfsSetFileInfo conv mvStatus truncOk truncErr ni Info
        ro).2.last_data_change_time = ni.last_data_change_time) ∧
    (ro = true →
      (Info.CreateTime ≠ 0 ∨ Info.LastAccessTime ≠ 0 ∨
        Info.ModificationTime ≠ 0) →
      NtfsSetFileInfo conv mvStatus truncOk truncErr ni Info ro =
        (.ACCESS_DENIED, ni)) := by
  refine ⟨?_, ?_, ?_, ?_⟩
  · intro h
    unfold NtfsSetFileInfo
    split
    · rfl
    · split
      · rfl
      · split
        · split
          · rfl
          · split
            · rfl
            · split
              · rfl
              · split
                · split
                  · exact ntfsSetInfoTail_creation conv Info _ h
                  · rfl
                · exact ntfsSetInfoTail_creation conv Info ni h
        · split
          · split
            · rfl
            · split
              · exact ntfsSetInfoTail_creation conv Info _ h
              · rfl
          · exact ntfsSetInfoTail_creation conv Info ni h
  · intro h
    unfold NtfsSetFileInfo
    split
    · rfl
    · split
      · rfl
      · split
        · split
          · rfl
          · split
            · rfl
            · split
              · rfl
              · split
                · split
                  · exact ntfsSetInfoTail_access conv Info _ h
                  · rfl
                · exact ntfsSetInfoTail_access conv Info ni h
        · split
          · split
            · rfl
            · split
              · exact ntfsSetInfoTail_access conv Info _ h
              · rfl
          · exact ntfsSetInfoTail_access conv Info ni h
  · intro h
    unfold NtfsSetFileInfo
    split
    · rfl
    · split
      · rfl
      · split
        · split
          · rfl
          · split
            · rfl
            · split
              · rfl
              · split
                · split
                  · exact ntfsSetInfoTail_mod conv Info _ h
                  · rfl
                · exact ntfsSetInfoTail_mod conv Info ni h
        · split
          · split
            · rfl
            · split
              · exact ntfsSetInfoTail_mod conv Info _ h
              · rfl
          · exact ntfsSetInfoTail_mod conv Info ni h
  · intro hro htimes
    unfold NtfsSetFileInfo
    split
    · rfl
    · split
      · rfl
      · rename_i hc2
        exfalso
        apply hc2
        rw [hro]
        simp only [Bool.true_and]
        rcases htimes with h | h | h <;> simp [h]

/-- Witness for C8: with all three timestamp fields zeroed, SetInfo (here
with a size change on a writable handle) leaves all three inode timestamps
unchanged. -/
theorem C8_setinfo_time_sentinels_witness :
    (NtfsSetFileInfo (fun n => (n : Int)) .SUCCESS true Errno.EIO
      ⟨false, false, 10, 111, 222, 333, false, false, false, false⟩
      ⟨false, false, 0, 0, 0, 20, false, false, false, false, true⟩
      false).2.creation_time = 111 :=
  (C8_setinfo_time_sentinels (fun n => (n : Int)) .SUCCESS true Errno.EIO
    ⟨false, false, 10, 111, 222, 333, false, false, false, false⟩
    ⟨false, false, 0, 0, 0, 20, false, false, false, false, true⟩
    false).1 rfl

/-- Counterexample to C9 as stated: the translation is not one-to-one —
the distinct errno values `EACCES` and `EEXIST` both map to
`EFI_ACCESS_DENIED` (uefi_bridge.c lines 68-71). -/
theorem C9_counterexample :
    ErrnoToEfiStatus .EACCES = ErrnoToEfiStatus .EEXIST ∧
    Errno.EACCES ≠ Errno.EEXIST :=
  ⟨rfl, fun h => Errno.noConfusion h⟩

/-- C9 (amended): the errno-to-status translation is a deterministic total
function — every errno value maps to exactly one status — but it is
many-to-one: distinct errno values may map to the same status. -/
theorem C9_errno_translation_deterministic :
    (∀ e : Errno, ∃! s : EfiStatus, ErrnoToEfiStatus e = s) ∧
    (∃ e₁ e₂ : Errno, e₁ ≠ e₂ ∧
      ErrnoToEfiStatus e₁ = ErrnoToEfiStatus e₂) :=
  ⟨fun e => ⟨ErrnoToEfiStatus e, rfl, fun _ hs => hs.symm⟩,
   ⟨.EACCES, .EEXIST, fun h => Errno.noConfusion h, rfl⟩⟩

end NtfsBridge
